import Mathlib

/-!
Verification of the DOCX-normalization core of the dochameleon repository
(`src/dochameleon/converters/pdf.py` and `src/dochameleon/pipeline.py`).

The Python code mutates a python-docx `Document` in place.  Here the document
is embedded shallowly as an immutable tree (`Document`, `Block`, `Paragraph`,
`Run`, `Table`, …) and every rewriter pass becomes a pure function on that
tree, translated statement by statement from the source.  Lengths that the
source stores as python-docx `Length` objects (EMU) are `Nat`s; `Pt n` is the
EMU value of `n` points, `Inches n` of `n` inches.  Python truthiness of
optional values is spelled out explicitly at each use site (e.g. a font size
of `some 0` is falsy, an empty string is falsy).
-/

namespace Dochameleon

/-! ## ASCII / Python string helpers

The source uses Python's `str.strip`, `str.lower`, `str.upper`, substring
tests (`'Heading' in style_name`) and `re` patterns.  These are implemented
here over `List Char`.  Python's `\s` class is `[ \t\n\r\x0b\x0c]` (ASCII
range; the documents in question are ASCII-based).
-/

/-- Python whitespace class `\s` (ASCII part). -/
def pySpace (c : Char) : Bool :=
  c = ' ' || c = '\t' || c = '\n' || c = '\r' || c.toNat = 11 || c.toNat = 12

/-- ASCII lower-casing of one character (Python `str.lower` on ASCII). -/
def lowerChar (c : Char) : Char :=
  if 'A' ≤ c ∧ c ≤ 'Z' then Char.ofNat (c.toNat + 32) else c

/-- ASCII upper-casing of one character (Python `str.upper` on ASCII). -/
def upperChar (c : Char) : Char :=
  if 'a' ≤ c ∧ c ≤ 'z' then Char.ofNat (c.toNat - 32) else c

/-- Python `str.lower` (ASCII). -/
def pyLower (s : String) : String := String.mk (s.data.map lowerChar)

/-- Python `str.upper` (ASCII). -/
def pyUpper (s : String) : String := String.mk (s.data.map upperChar)

/-- Python `str.strip`: drop leading and trailing whitespace. -/
def pyStrip (s : String) : String :=
  String.mk (((s.data.dropWhile pySpace).reverse.dropWhile pySpace).reverse)

/-- Substring test on character lists (Python `pat in hay`). -/
def subList (hay pat : List Char) : Bool :=
  match hay with
  | [] => pat.isEmpty
  | _ :: tl => pat.isPrefixOf hay || subList tl pat

/-- Python `pat in hay` for strings. -/
def pyContains (hay pat : String) : Bool := subList hay.data pat.data

/-- Case-insensitive literal match: if `lit` (ASCII letters given in lower
case) is a prefix of `cs` up to case, return the rest of `cs`. -/
def matchLitCI : List Char → List Char → Option (List Char)
  | [], cs => some cs
  | _, [] => none
  | l :: ls, c :: cs => if lowerChar c = l then matchLitCI ls cs else none

/-- Case-sensitive literal match returning the rest on success. -/
def matchLit : List Char → List Char → Option (List Char)
  | [], cs => some cs
  | _, [] => none
  | l :: ls, c :: cs => if c = l then matchLit ls cs else none

/-- ASCII digit test (Python `\d` on ASCII text). -/
def isDig (c : Char) : Bool := '0' ≤ c && c ≤ '9'

/-- ASCII letter test (`[a-zA-Z]`). -/
def isAlpha (c : Char) : Bool := ('a' ≤ c && c ≤ 'z') || ('A' ≤ c && c ≤ 'Z')

/-- Word character test (Python `\w` on ASCII: `[a-zA-Z0-9_]`). -/
def isWordChar (c : Char) : Bool := isAlpha c || isDig c || c = '_'

/-! ## Length units

python-docx `Pt` and `Inches` produce EMU lengths. -/

/-- EMU value of `n` points (python-docx `Pt n`). -/
def Pt (n : Nat) : Nat := n * 12700

/-- EMU value of `n` inches (python-docx `Inches n`). -/
def Inches (n : Nat) : Nat := n * 914400

/-! ## Data model

A shallow embedding of exactly the parts of the python-docx object model
that the rewriter touches.  XML child elements whose only role in the source
is to be found (`find`) and removed are `Option` fields; XML children whose
order matters (runs, hyperlinks, bookmarks inside a `w:p`) are a list.
-/

/-- RGB color (python-docx `RGBColor`). -/
structure RGB where
  r : Nat
  g : Nat
  b : Nat
deriving DecidableEq, Repr

/-- The `w:shd` shading element; `fill` is its optional `w:fill` attribute. -/
structure Shd where
  fill : Option String := none
deriving DecidableEq, Repr

/-- Character formatting carried by a run (`run.font` plus `run.bold`). -/
structure Font where
  name : Option String := none
  size : Option Nat := none
  color : Option RGB := none
  underline : Option Bool := none
deriving DecidableEq, Repr

/-- Field-code content of a run: a `w:fldChar` of the given type or a
`w:instrText` with the given instruction string. -/
inductive FldTag where
  | fldBegin
  | fldSeparate
  | fldEnd
  | instr (s : String)
deriving DecidableEq, Repr

/-- A `w:r` run: its `w:t` text (empty for pure field-character runs), its
bold flag (`None`/`True`/`False` in Python), font properties, optional
`w:rPr/w:shd` shading, and an optional field-code child. -/
structure Run where
  text : String := ""
  bold : Option Bool := none
  font : Font := {}
  shd : Option Shd := none
  fld : Option FldTag := none
deriving DecidableEq, Repr

/-- A `w:hyperlink` element: an `r:id` relationship reference (external
links), or a `w:anchor` (internal links), wrapping a list of runs. -/
structure Hyperlink where
  rId : Option Nat := none
  anchor : Option String := none
  runs : List Run := []
deriving DecidableEq, Repr

/-- An ordered child of a `w:p` paragraph element. -/
inductive PChild where
  | run (r : Run)
  | hyperlink (h : Hyperlink)
  | bookmarkStart (id : Nat) (name : String)
  | bookmarkEnd (id : Nat)
deriving DecidableEq, Repr

/-- The `w:pPr` paragraph-properties element; the three flags record the
presence of the `w:pBdr`, `w:shd` and `w:framePr` children that the source
finds and removes. -/
structure PPr where
  pBdr : Bool := false
  shd : Bool := false
  framePr : Bool := false
deriving DecidableEq, Repr

/-- A paragraph: its style name (python-docx resolves a missing style to
`Normal`), its optional `w:pPr`, the spacing exposed through
`paragraph_format` (EMU), and its ordered children. -/
structure Paragraph where
  styleName : String := "Normal"
  pPr : Option PPr := none
  spaceBefore : Option Nat := none
  spaceAfter : Option Nat := none
  children : List PChild := []
deriving DecidableEq, Repr

/-- `paragraph.runs`: the direct `w:r` children, in order (runs wrapped in a
`w:hyperlink` are not included, as in python-docx). -/
def Paragraph.runs (p : Paragraph) : List Run :=
  p.children.filterMap fun c =>
    match c with
    | .run r => some r
    | _ => none

/-- `paragraph.text`: concatenation of the texts of `paragraph.runs`. -/
def Paragraph.text (p : Paragraph) : String :=
  String.join ((p.runs).map Run.text)

/-- One border element (e.g. `w:top`) inside `w:tblBorders`/`w:tcBorders`;
attributes as written by the source. -/
structure Border where
  val : String
  sz : Option String := none
  color : Option String := none
  space : Option String := none
deriving DecidableEq, Repr

/-- The `w:tblBorders` element with its six optional positional children. -/
structure SixBorders where
  top : Option Border := none
  left : Option Border := none
  bottom : Option Border := none
  right : Option Border := none
  insideH : Option Border := none
  insideV : Option Border := none
deriving DecidableEq, Repr

/-- The `w:tcBorders` element with its four optional positional children. -/
structure FourBorders where
  top : Option Border := none
  left : Option Border := none
  bottom : Option Border := none
  right : Option Border := none
deriving DecidableEq, Repr

/-- The `w:tblPr` element: optional borders, table indent and shading. -/
structure TblPr where
  borders : Option SixBorders := none
  tblInd : Option Nat := none
  shd : Option Shd := none
deriving DecidableEq, Repr

/-- The `w:tcPr` cell-properties element. -/
structure TcPr where
  borders : Option FourBorders := none
  shd : Option Shd := none
deriving DecidableEq, Repr

/-- A table cell: optional `w:tcPr` and its paragraphs. -/
structure Cell where
  tcPr : Option TcPr := none
  paragraphs : List Paragraph := []
deriving DecidableEq, Repr

/-- A table: optional `w:tblPr`, the number of `w:gridCol` columns
(`len(table.columns)` in python-docx) and the grid of cells. -/
structure Table where
  tblPr : Option TblPr := none
  gridCols : Nat := 0
  rows : List (List Cell) := []
deriving DecidableEq, Repr

/-- `cell.text` in python-docx: the cell's paragraph texts joined by
newlines. -/
def Cell.text (c : Cell) : String :=
  String.intercalate "\n" (c.paragraphs.map Paragraph.text)

/-- A top-level block of the document body. -/
inductive Block where
  | para (p : Paragraph)
  | tbl (t : Table)
deriving DecidableEq, Repr

/-- A `w:sectPr` section with its margin and header/footer distances (EMU). -/
structure Section where
  topMargin : Nat := 0
  bottomMargin : Nat := 0
  leftMargin : Nat := 0
  rightMargin : Nat := 0
  headerDistance : Nat := 0
  footerDistance : Nat := 0
deriving DecidableEq, Repr

/-- The `Normal` style record touched by `apply_native_styles`
(`line_spacing = 1.15` is stored in hundredths to stay in `Nat`). -/
structure NormalStyle where
  fontName : Option String := none
  fontSize : Option Nat := none
  spaceAfter : Option Nat := none
  lineSpacingHundredths : Option Nat := none
deriving DecidableEq, Repr

/-- An external-relationship entry of the document part:
`(target URL, is_external)`.  `relate_to` returns the entry's index. -/
structure Document where
  blocks : List Block := []
  sections : List Section := []
  normal : NormalStyle := {}
  rels : List (String × Bool) := []
deriving DecidableEq, Repr

/-- Body-level paragraphs of a block list, in order. -/
def parasOfBlocks (bs : List Block) : List Paragraph :=
  bs.filterMap fun b =>
    match b with
    | .para p => some p
    | _ => none

/-- `doc.paragraphs`: the body-level paragraphs, in order. -/
def Document.paragraphs (d : Document) : List Paragraph :=
  parasOfBlocks d.blocks

/-- `doc.tables`: the body-level tables, in order. -/
def Document.tables (d : Document) : List Table :=
  d.blocks.filterMap fun b =>
    match b with
    | .tbl t => some t
    | _ => none

/-! ## Pass 1: `set_page_margins` (pdf.py lines 220-237) -/

/-- `set_page_margins`: force 1-inch margins and 0.5-inch header/footer
distances on every section (0.5 inch = 457200 EMU). -/
def set_page_margins (d : Document) : Document :=
  { d with
    sections := d.sections.map fun _ =>
      { topMargin := Inches 1, bottomMargin := Inches 1,
        leftMargin := Inches 1, rightMargin := Inches 1,
        headerDistance := 457200, footerDistance := 457200 } }

/-! ## Pass 2: wrapper-table classification and cleanup
(pdf.py lines 240-351 and 1092-1135) -/

/-- The concatenated stripped cell text computed in `remove_wrapper_tables`:
`for row in table.rows: for cell in row.cells: cell_text += cell.text.strip()`. -/
def tableCellText (t : Table) : String :=
  t.rows.foldl (fun acc row =>
    row.foldl (fun acc2 c => acc2 ++ pyStrip c.text) acc) ""

/-- The wrapper test of `remove_wrapper_tables`, translated branch by
branch: `rows` is `len(table.rows)`, `cols` is
`len(table.columns) if table.rows else 0`. -/
def isWrapperTable (t : Table) : Bool :=
  let rows := t.rows.length
  let cols := if t.rows.isEmpty then 0 else t.gridCols
  if rows = 1 && cols = 1 then true
  else if rows = 1 && cols ≤ 2 then true
  else if rows ≤ 2 then
    decide ((tableCellText t).length < 200) && rows = 1
  else false

/-- The six explicit `val=nil` border children written by
`remove_table_borders`. -/
def nilSixBorders : SixBorders :=
  { top := some { val := "nil" }, left := some { val := "nil" },
    bottom := some { val := "nil" }, right := some { val := "nil" },
    insideH := some { val := "nil" }, insideV := some { val := "nil" } }

/-- The four explicit `val=nil` border children written by
`remove_cell_formatting`. -/
def nilFourBorders : FourBorders :=
  { top := some { val := "nil" }, left := some { val := "nil" },
    bottom := some { val := "nil" }, right := some { val := "nil" } }

/-- `remove_table_borders`: only when the table has a `w:tblPr`, replace its
borders by the six nil entries and drop `w:tblInd`. -/
def remove_table_borders (t : Table) : Table :=
  match t.tblPr with
  | none => t
  | some pr =>
      { t with tblPr := some { pr with borders := some nilSixBorders, tblInd := none } }

/-- The gray-fill palette tested by `remove_paragraph_borders` on run
shading (note `'auto'` is compared against the upper-cased fill, so it can
never match — kept verbatim from the source). -/
def runShdPalette : List String :=
  ["F5F5F5", "F0F0F0", "EFEFEF", "FAFAFA", "E0E0E0", "F8F8F8", "E8E8E8",
   "D0D0D0", "FFFFFF", "auto"]

/-- Run part of `remove_paragraph_borders`: remove the run's shading when
its fill is truthy and its upper-casing is in the artifact palette. -/
def cleanRunShd (r : Run) : Run :=
  match r.shd with
  | some s =>
      match s.fill with
      | some f =>
          if f ≠ "" && runShdPalette.contains (pyUpper f) then
            { r with shd := none }
          else r
      | none => r
  | none => r

/-- `remove_paragraph_borders`: if the paragraph has a `w:pPr`, remove its
`w:pBdr`, `w:shd` and `w:framePr`; then clean the shading of its direct
runs. -/
def remove_paragraph_borders (p : Paragraph) : Paragraph :=
  let p :=
    match p.pPr with
    | some _ => { p with pPr := some {} }
    | none => p
  { p with
    children := p.children.map fun c =>
      match c with
      | .run r => .run (cleanRunShd r)
      | other => other }

/-- `remove_cell_formatting`: if the cell has a `w:tcPr`, replace its
borders by the four nil entries and drop its shading; always clean the
cell's paragraphs with `remove_paragraph_borders`. -/
def remove_cell_formatting (c : Cell) : Cell :=
  let c :=
    match c.tcPr with
    | some pr => { c with tcPr := some { pr with borders := some nilFourBorders, shd := none } }
    | none => c
  { c with paragraphs := c.paragraphs.map remove_paragraph_borders }

/-- The cell-shading palette of `apply_clean_table_style` (seven entries). -/
def cellShdPalette : List String :=
  ["F5F5F5", "F0F0F0", "EFEFEF", "FAFAFA", "E0E0E0", "F8F8F8", "FFFFFF"]

/-- The uniform data-table border written by `apply_clean_table_style`:
`single`, size 4, color `BFBFBF`, space 0, on all six positions. -/
def cleanBorder : Border :=
  { val := "single", sz := some "4", color := some "BFBFBF", space := some "0" }

/-- The six clean border children of `apply_clean_table_style`. -/
def cleanSixBorders : SixBorders :=
  { top := some cleanBorder, left := some cleanBorder,
    bottom := some cleanBorder, right := some cleanBorder,
    insideH := some cleanBorder, insideV := some cleanBorder }

/-- Cell part of `apply_clean_table_style`: if the cell has a `w:tcPr`
whose shading fill is truthy and (upper-cased) in the seven-gray palette,
remove the shading. -/
def cleanTableCell (c : Cell) : Cell :=
  match c.tcPr with
  | some pr =>
      match pr.shd with
      | some s =>
          match s.fill with
          | some f =>
              if f ≠ "" && cellShdPalette.contains (pyUpper f) then
                { c with tcPr := some { pr with shd := none } }
              else c
          | none => c
      | none => c
  | none => c

/-- `apply_clean_table_style`: create the `w:tblPr` if missing, replace its
borders by the six clean gray borders, and drop artifact cell shading. -/
def apply_clean_table_style (t : Table) : Table :=
  let pr := t.tblPr.getD {}
  { t with
    tblPr := some { pr with borders := some cleanSixBorders },
    rows := t.rows.map fun row => row.map cleanTableCell }

/-- Per-table body of the `remove_wrapper_tables` loop: wrapper tables get
`remove_table_borders` and `remove_cell_formatting` on every cell; real
tables get `apply_clean_table_style`. -/
def processTableForWrapper (t : Table) : Table :=
  if isWrapperTable t then
    let t := remove_table_borders t
    { t with rows := t.rows.map fun row => row.map remove_cell_formatting }
  else
    apply_clean_table_style t

/-- `remove_wrapper_tables`: apply the per-table cleanup to every table of
the document. -/
def remove_wrapper_tables (d : Document) : Document :=
  { d with
    blocks := d.blocks.map fun b =>
      match b with
      | .tbl t => .tbl (processTableForWrapper t)
      | other => other }

/-! ## Pass 3: `remove_all_paragraph_borders` (pdf.py lines 354-369) -/

/-- `remove_all_paragraph_borders`: `remove_paragraph_borders` on every body
paragraph and on every paragraph inside every table cell. -/
def remove_all_paragraph_borders (d : Document) : Document :=
  { d with
    blocks := d.blocks.map fun b =>
      match b with
      | .para p => .para (remove_paragraph_borders p)
      | .tbl t =>
          .tbl { t with
            rows := t.rows.map fun row => row.map fun c =>
              { c with paragraphs := c.paragraphs.map remove_paragraph_borders } } }

/-! ## Pass 4: `clean_headings` (pdf.py lines 410-449) -/

/-- The heading test of `clean_headings`: style name containing `Heading` or
`Title`, or else the fallback — stripped text of length strictly between 0
and 100 with at least one run that is bold (truthy) with a truthy font size
of at least 12pt. -/
def clean_headings_is_heading (p : Paragraph) : Bool :=
  if pyContains p.styleName "Heading" || pyContains p.styleName "Title" then
    true
  else
    let text := pyStrip p.text
    if text.length < 100 && text.length > 0 then
      p.runs.any fun r =>
        r.bold = some true &&
        (match r.font.size with
         | some s => !(s = 0) && decide (s ≥ Pt 12)
         | none => false)
    else false

/-- `clean_headings`: for each body paragraph classified as heading, remove
`w:pBdr` and `w:shd` from its `w:pPr` (when present — `w:framePr` is not
touched here) and force 12pt-before / 6pt-after spacing. -/
def clean_headings (d : Document) : Document :=
  { d with
    blocks := d.blocks.map fun b =>
      match b with
      | .para p =>
          if clean_headings_is_heading p then
            let p :=
              match p.pPr with
              | some pr => { p with pPr := some { pr with pBdr := false, shd := false } }
              | none => p
            .para { p with spaceBefore := some (Pt 12), spaceAfter := some (Pt 6) }
          else .para p
      | other => other }

/-! ## The URL regex of `rebuild_hyperlinks` (pdf.py lines 479-482)

`(https?://[^\s<>"{}|\\^`\[\]]+|www\.[^\s<>"{}|\\^`\[\]]+|`
`[a-zA-Z0-9._%+-]+@[a-zA-Z0-9.-]+\.[a-zA-Z]{2,})`

implemented with Python `re` semantics: scan left to right, at each start
position try the three alternatives in order, each `+`/`{2,}` greedy with
the backtracking the pattern needs, continue after a match. -/

/-- The negated character class of the two URL branches: not whitespace and
none of `<angle brackets> " \x7b \x7d | backslash ^ backtick [ ]` (the brace
and backtick members are given by code point). -/
def urlChar (c : Char) : Bool :=
  !(pySpace c) && !(c = '<' || c = '>' || c = '"' || c.toNat = 123 ||
    c.toNat = 125 || c = '|' || c = '\\' || c = '^' || c.toNat = 96 ||
    c = '[' || c = ']')

/-- Local-part class of the email branch: `[a-zA-Z0-9._%+-]`. -/
def emailLocalChar (c : Char) : Bool :=
  isAlpha c || isDig c || c = '.' || c = '_' || c = '%' || c = '+' || c = '-'

/-- Domain class of the email branch: `[a-zA-Z0-9.-]`. -/
def emailDomChar (c : Char) : Bool :=
  isAlpha c || isDig c || c = '.' || c = '-'

/-- Greedy-with-backtracking match of `[a-zA-Z0-9.-]+\.[a-zA-Z]{2,}` inside
the maximal domain-character run `dom`: the largest `k ≥ 1` with a dot at
position `k` followed by at least two letters wins; returns the matched
length. -/
def emailDomMatch (dom : List Char) : Option Nat :=
  (List.range dom.length).reverse.findSome? fun k =>
    if 1 ≤ k && dom.get? k = some '.' then
      let m := ((dom.drop (k + 1)).takeWhile isAlpha).length
      if 2 ≤ m then some (k + 1 + m) else none
    else none

/-- One step after a scheme/`www.` literal: at least one `urlChar`,
greedily. -/
def urlTail (pre rest : List Char) : Option (List Char × List Char) :=
  let body := rest.takeWhile urlChar
  if body.isEmpty then none else some (pre ++ body, rest.drop body.length)

/-- Try the full URL alternation at the head of `cs`; on success return the
matched characters and the remainder. -/
def matchUrlAt (cs : List Char) : Option (List Char × List Char) :=
  (match matchLit "https://".data cs with
   | some rest => urlTail "https://".data rest
   | none => none) <|>
  (match matchLit "http://".data cs with
   | some rest => urlTail "http://".data rest
   | none => none) <|>
  (match matchLit "www.".data cs with
   | some rest => urlTail "www.".data rest
   | none => none) <|>
  (let loc := cs.takeWhile emailLocalChar
   if loc.isEmpty then none
   else
     match cs.drop loc.length with
     | '@' :: afterAt =>
         let dom := afterAt.takeWhile emailDomChar
         match emailDomMatch dom with
         | some n => some (loc ++ '@' :: dom.take n, afterAt.drop n)
         | none => none
     | _ => none)

/-- Non-overlapping left-to-right scan for URL matches; the fuel argument is
always called with the length of the scanned text and every step consumes at
least one character, so it never runs out. -/
def findUrlAux : Nat → List Char → List String
  | 0, _ => []
  | _ + 1, [] => []
  | fuel + 1, c :: cs =>
      match matchUrlAt (c :: cs) with
      | some (m, rest) => String.mk m :: findUrlAux fuel rest
      | none => findUrlAux fuel cs

/-- All matches of the URL pattern in `s` (`url_pattern.finditer`), in
order. -/
def findUrlMatches (s : String) : List String :=
  findUrlAux s.data.length s.data

/-! ## Pass 5: `rebuild_hyperlinks` (pdf.py lines 456-649) -/

/-- One record extracted from the source PDF by `extract_pdf_hyperlinks`
(only the fields `rebuild_hyperlinks` reads). -/
structure PdfLink where
  text : Option String := none
  url : Option String := none
  page : Nat := 0
deriving DecidableEq, Repr

/-- Python dict assignment `m[k] = v`: replace in place or append. -/
def dictInsertStr (m : List (String × String)) (k v : String) :
    List (String × String) :=
  if m.any (fun e => e.1 = k) then
    m.map fun e => if e.1 = k then (k, v) else e
  else m ++ [(k, v)]

/-- The `pdf_url_map` built at the top of `rebuild_hyperlinks`: for links
with truthy text and url, key = stripped lower-cased display text. -/
def buildPdfUrlMap (links : List PdfLink) : List (String × String) :=
  links.foldl
    (fun m l =>
      match l.text, l.url with
      | some t, some u =>
          if t ≠ "" && u ≠ "" then dictInsertStr m (pyLower (pyStrip t)) u else m
      | _, _ => m)
    []

/-- Dict lookup (keys are unique by construction of `dictInsertStr`). -/
def mapLookup (m : List (String × String)) (k : String) : Option String :=
  (m.find? fun e => e.1 = k).map fun e => e.2

/-- Python `str.startswith`. -/
def pyStartsWith (s pre : String) : Bool := pre.data.isPrefixOf s.data

/-- The URL scheme fix-up at the top of `_add_hyperlink_to_run` (and
`add_hyperlink`): prepend `https://` to `www.` URLs and `mailto:` to
addresses containing `@` without a `mailto:` scheme. -/
def normalizeUrl (url : String) : String :=
  if pyStartsWith url "www." then "https://" ++ url
  else if pyContains url "@" && !(pyStartsWith url "mailto:") then "mailto:" ++ url
  else url

/-- Index of the first external relationship with the given target. -/
def relFindIdx : List (String × Bool) → String → Nat → Option Nat
  | [], _, _ => none
  | e :: es, t, i => if e.1 = t && e.2 then some i else relFindIdx es t (i + 1)

/-- `part.relate_to(url, …, is_external=True)`: return the index of an
existing external relationship with this target, else append one. -/
def relateTo (rels : List (String × Bool)) (target : String) :
    List (String × Bool) × Nat :=
  match relFindIdx rels target 0 with
  | some i => (rels, i)
  | none => (rels ++ [(target, true)], rels.length)

/-- The hyperlink styling both `_style_hyperlink_runs` (color val `0000EE`,
underline `single`) and the run-level API calls (`RGBColor(0, 0, 238)`,
`underline = True`) produce. -/
def styleLinkRun (r : Run) : Run :=
  { r with font := { r.font with color := some ⟨0, 0, 238⟩, underline := some true } }

/-- `_style_hyperlink_runs` applied to an existing `w:hyperlink` element. -/
def style_hyperlink_runs (h : Hyperlink) : Hyperlink :=
  { h with runs := h.runs.map styleLinkRun }

/-- A stateful map over a list, threading an accumulator left to right. -/
def mapAccumL (f : σ → α → σ × β) : σ → List α → σ × List β
  | s, [] => (s, [])
  | s, a :: rest =>
      let (s1, b) := f s a
      let (s2, bs) := mapAccumL f s1 rest
      (s2, b :: bs)

/-- The body of the PDF-map loop of `_process_paragraph_for_hyperlinks`,
per run child: a run with truthy text whose stripped lower-cased text is a
key of the map is styled and replaced, at its position, by a hyperlink
element holding the relationship to the normalized URL. -/
def hlMapStep (urlMap : List (String × String)) (rels : List (String × Bool))
    (c : PChild) : List (String × Bool) × PChild :=
  match c with
  | PChild.run r =>
      if r.text ≠ "" then
        match mapLookup urlMap (pyLower (pyStrip r.text)) with
        | some url =>
            let r := styleLinkRun r
            let s := relateTo rels (normalizeUrl url)
            (s.1, PChild.hyperlink { rId := some s.2, runs := [r] })
        | none => (rels, PChild.run r)
      else (rels, PChild.run r)
  | other => (rels, other)

/-- The body of the URL-regex loop of `_process_paragraph_for_hyperlinks`,
per run child: a run with at least one URL match is styled and wrapped with
the first match's relationship; later matches in the same run still create
their relationship but the element replacement raises (the run is already
detached) and is swallowed. -/
def hlRegexStep (rels : List (String × Bool)) (c : PChild) :
    List (String × Bool) × PChild :=
  match c with
  | PChild.run r =>
      if r.text ≠ "" then
        match findUrlMatches r.text with
        | [] => (rels, PChild.run r)
        | m :: ms =>
            let r := styleLinkRun r
            let s := relateTo rels (normalizeUrl m)
            let rels2 := ms.foldl (fun rl m2 => (relateTo rl (normalizeUrl m2)).1) s.1
            (rels2, PChild.hyperlink { rId := some s.2, runs := [r] })
      else (rels, PChild.run r)
  | other => (rels, other)

/-- `_process_paragraph_for_hyperlinks`, threading the part's relationship
list.  Stage 1 restyles pre-existing hyperlink elements; stage 2 is the
PDF-map loop; stage 3, entered only when the paragraph's entry text has a
URL match at all, is the URL-regex loop over the then-current run
children. -/
def processParagraphForHyperlinks (urlMap : List (String × String))
    (st : List (String × Bool)) (p : Paragraph) :
    List (String × Bool) × Paragraph :=
  let fullText := p.text
  let children1 := p.children.map fun c =>
    match c with
    | .hyperlink h => .hyperlink (style_hyperlink_runs h)
    | other => other
  let s2 := mapAccumL (hlMapStep urlMap) st children1
  if (findUrlMatches fullText).isEmpty then
    (s2.1, { p with children := s2.2 })
  else
    let s3 := mapAccumL hlRegexStep s2.1 s2.2
    (s3.1, { p with children := s3.2 })

/-- First phase of `rebuild_hyperlinks` per block: process body
paragraphs, leave tables for the second phase. -/
def hlParaPhaseStep (urlMap : List (String × String))
    (st : List (String × Bool)) (b : Block) : List (String × Bool) × Block :=
  match b with
  | Block.para p =>
      let r := processParagraphForHyperlinks urlMap st p
      (r.1, Block.para r.2)
  | other => (st, other)

/-- Second phase of `rebuild_hyperlinks` per cell: process the cell's
paragraphs. -/
def hlCellStep (urlMap : List (String × String))
    (st : List (String × Bool)) (c : Cell) : List (String × Bool) × Cell :=
  let pp := mapAccumL (processParagraphForHyperlinks urlMap) st c.paragraphs
  (pp.1, { c with paragraphs := pp.2 })

/-- Second phase of `rebuild_hyperlinks` per row. -/
def hlRowStep (urlMap : List (String × String))
    (st : List (String × Bool)) (row : List Cell) :
    List (String × Bool) × List Cell :=
  mapAccumL (hlCellStep urlMap) st row

/-- Second phase of `rebuild_hyperlinks` per block: process the paragraphs
inside table cells. -/
def hlTblPhaseStep (urlMap : List (String × String))
    (st : List (String × Bool)) (b : Block) : List (String × Bool) × Block :=
  match b with
  | Block.tbl t =>
      let rr := mapAccumL (hlRowStep urlMap) st t.rows
      (rr.1, Block.tbl { t with rows := rr.2 })
  | other => (st, other)

/-- `rebuild_hyperlinks`: build the PDF url map, process every body
paragraph, then every paragraph of every table cell, threading the
relationship list in that order. -/
def rebuild_hyperlinks (links : List PdfLink) (d : Document) : Document :=
  let urlMap := buildPdfUrlMap links
  let s1 := mapAccumL (hlParaPhaseStep urlMap) d.rels d.blocks
  let s2 := mapAccumL (hlTblPhaseStep urlMap) s1.1 s1.2
  { d with blocks := s2.2, rels := s2.1 }

/-! ## Pass 6: `rebuild_toc` (pdf.py lines 716-962) -/

/-- One entry of the list returned by `_collect_headings`. -/
structure HeadingInfo where
  index : Nat
  level : Nat
  text : String
  bookmark : String
deriving DecidableEq, Repr

/-- The heading level assigned by the body of the `_collect_headings` loop:
`None` for skipped (empty-text) paragraphs and non-headings.  The fallback
looks only at the first truthy-bold run (the loop breaks there) and needs a
truthy font size of at least 12pt; the text bound here is 80, not the 100 of
`clean_headings`. -/
def headingLevelOf (p : Paragraph) : Option Nat :=
  let text := pyStrip p.text
  if text = "" then none
  else if pyContains p.styleName "Heading 1" || p.styleName = "Title" then some 1
  else if pyContains p.styleName "Heading 2" then some 2
  else if pyContains p.styleName "Heading 3" then some 3
  else if pyContains p.styleName "Heading 4" then some 4
  else if pyContains p.styleName "Heading" then some 5
  else if text.length < 80 then
    match p.runs.find? (fun r => r.bold = some true) with
    | some r =>
        match r.font.size with
        | some s =>
            if s = 0 then none
            else if Pt 16 ≤ s then some 1
            else if Pt 14 ≤ s then some 2
            else if Pt 12 ≤ s then some 3
            else none
        | none => none
    | none => none
  else none

/-- `_collect_headings`: every body paragraph with a heading level, with its
paragraph index, stripped text and bookmark name `_Toc⟨index⟩`. -/
def _collect_headings (d : Document) : List HeadingInfo :=
  d.paragraphs.enum.filterMap fun ip =>
    match headingLevelOf ip.2 with
    | some lvl =>
        some { index := ip.1, level := lvl, text := pyStrip ip.2.text,
               bookmark := "_Toc" ++ Nat.repr ip.1 }
    | none => none

/-- The TOC-title search of `rebuild_toc`: index (among body paragraphs) of
the first paragraph whose stripped lower-cased text is exactly one of the
three titles.  (The `toc_end_idx` scan in the source computes a value that
is never used and is omitted.) -/
def tocTitleParaIdx (d : Document) : Option Nat :=
  d.paragraphs.enum.findSome? fun ip =>
    let t := pyLower (pyStrip ip.2.text)
    if t = "contents" || t = "table of contents" || t = "toc" then some ip.1
    else none

/-- `_add_bookmark_to_paragraph`: a `w:bookmarkStart` inserted at child
position 0 and a `w:bookmarkEnd` with the same id appended at the end.  The
source draws the id from `random.randint(10000, 99999)`; it is a parameter
here because no property depends on its value. -/
def _add_bookmark_to_paragraph (id : Nat) (bookmarkName : String)
    (p : Paragraph) : Paragraph :=
  { p with
    children := PChild.bookmarkStart id bookmarkName ::
      (p.children ++ [PChild.bookmarkEnd id]) }

/-- Fixed stand-in for `random.randint(10000, 99999)` in the composed
document pipeline. -/
def bookmarkIdConst : Nat := 10000

/-- Apply `f` to the `n`-th paragraph block (counting paragraphs only). -/
def updateParaAt (f : Paragraph → Paragraph) : List Block → Nat → List Block
  | [], _ => []
  | Block.para p :: bs, 0 => Block.para (f p) :: bs
  | Block.para p :: bs, n + 1 => Block.para p :: updateParaAt f bs n
  | Block.tbl t :: bs, n => Block.tbl t :: updateParaAt f bs n

/-- Position in the block list of the `n`-th paragraph
(`list(parent).index(p)` for the body). -/
def blockIdxOfParaIdx : List Block → Nat → Option Nat
  | [], _ => none
  | Block.para _ :: _, 0 => some 0
  | Block.para _ :: bs, n + 1 => (blockIdxOfParaIdx bs n).map (· + 1)
  | Block.tbl _ :: bs, n => (blockIdxOfParaIdx bs n).map (· + 1)

/-- The TOC field instruction written by `_add_toc_field`: outline levels
1-3, hyperlinks, hidden tab/page in web view, paragraph outline levels. -/
def tocInstrText : String := " TOC \\o \"1-3\" \\h \\z \\u "

/-- The placeholder text of the TOC field result. -/
def tocPlaceholderText : String :=
  "Right-click and select \"Update Field\" to generate table of contents"

/-- The field-code paragraph `_add_toc_field` builds: begin run, instruction
run, separator run, placeholder text run, end run. -/
def tocFieldParagraph : Paragraph :=
  { styleName := "Normal",
    children := [
      PChild.run { fld := some FldTag.fldBegin },
      PChild.run { fld := some (FldTag.instr tocInstrText) },
      PChild.run { fld := some FldTag.fldSeparate },
      PChild.run { text := tocPlaceholderText },
      PChild.run { fld := some FldTag.fldEnd }] }

/-- The bookmark loop at the top of `_add_toc_field`: every collected
heading paragraph (guarding the index) receives its bookmark. -/
def tocBookmarkedBlocks (d : Document) (headings : List HeadingInfo) :
    List Block :=
  headings.foldl
    (fun bs h =>
      if h.index < d.paragraphs.length then
        updateParaAt (_add_bookmark_to_paragraph bookmarkIdConst h.bookmark) bs h.index
      else bs)
    d.blocks

/-- `_add_toc_field`: bookmark every collected heading paragraph (guarding
the index), then insert the TOC field paragraph into the body immediately
after the TOC-title paragraph's block. -/
def _add_toc_field (d : Document) (tocParaIdx : Nat)
    (headings : List HeadingInfo) : Document :=
  let blocks := tocBookmarkedBlocks d headings
  match blockIdxOfParaIdx blocks tocParaIdx with
  | some bi =>
      { d with blocks := blocks.insertIdx (bi + 1) (Block.para tocFieldParagraph) }
  | none => { d with blocks := blocks }

/-- `rebuild_toc`: collect headings (return unchanged if none), find the
TOC-title paragraph, and add the TOC field there. -/
def rebuild_toc (d : Document) : Document :=
  let headings := _collect_headings d
  if headings.isEmpty then d
  else
    match tocTitleParaIdx d with
    | some i => _add_toc_field d i headings
    | none => d

/-! ## Pass 7: `rebuild_list_of_figures_tables` (pdf.py lines 965-1023)

Caption regexes `^(Figure|Fig\.?)\s*(\d+)` and `^(Table)\s*(\d+)`, both
`re.match` with `IGNORECASE`, on the stripped paragraph text. -/

/-- After a caption keyword: `\s*` then at least one digit; returns the
digit group. -/
def captionDigits (rest : List Char) : Option String :=
  let ds := (rest.dropWhile pySpace).takeWhile isDig
  if ds.isEmpty then none else some (String.mk ds)

/-- `^(Figure|Fig\.?)\s*(\d+)` with IGNORECASE (with the alternation and
optional-dot backtracking of `re`): returns the number group. -/
def figCaptionNum (s : String) : Option String :=
  (match matchLitCI "figure".data s.data with
   | some rest => captionDigits rest
   | none => none) <|>
  (match matchLitCI "fig".data s.data with
   | some rest =>
       (match rest with
        | '.' :: rest2 => captionDigits rest2
        | _ => none) <|> captionDigits rest
   | none => none)

/-- `^(Table)\s*(\d+)` with IGNORECASE: returns the number group. -/
def tblCaptionNum (s : String) : Option String :=
  match matchLitCI "table".data s.data with
  | some rest => captionDigits rest
  | none => none

/-- Map over the body paragraphs with their paragraph index. -/
def mapParasWithIdx (f : Nat → Paragraph → Paragraph) :
    List Block → Nat → List Block
  | [], _ => []
  | Block.para p :: bs, i => Block.para (f i p) :: mapParasWithIdx f bs (i + 1)
  | Block.tbl t :: bs, i => Block.tbl t :: mapParasWithIdx f bs i

/-- `rebuild_list_of_figures_tables`: bookmark figure captions as
`_FigRef⟨i⟩` and (via the `continue`, only paragraphs that are not figure
captions) table captions as `_TblRef⟨i⟩`.  The second loop of the source
looks for `list of figures` / `list of tables` headers and calls
`_create_list_field`, which only builds a local string and performs no
mutation, so it contributes nothing here. -/
def rebuild_list_of_figures_tables (d : Document) : Document :=
  { d with
    blocks := mapParasWithIdx
      (fun i p =>
        let text := pyStrip p.text
        if (figCaptionNum text).isSome then
          _add_bookmark_to_paragraph bookmarkIdConst ("_FigRef" ++ Nat.repr i) p
        else if (tblCaptionNum text).isSome then
          _add_bookmark_to_paragraph bookmarkIdConst ("_TblRef" ++ Nat.repr i) p
        else p)
      d.blocks 0 }

/-! ## Pass 8: `fix_cross_references` (pdf.py lines 1027-1089) -/

/-- `^(\d+(?:\.\d+)*)\s+\w+`: a dotted section number followed by
whitespace and a word character; returns the number group.  (The `*` needs
no backtracking: giving a repetition back would leave `\s+` looking at a
dot.) -/
def sectionNumOf (s : String) : Option String :=
  let ds := s.data.takeWhile isDig
  if ds.isEmpty then none
  else
    let rec groups : Nat → List Char → List Char → List Char × List Char
      | 0, acc, rest => (acc, rest)
      | fuel + 1, acc, rest =>
          match rest with
          | '.' :: rest2 =>
              let ds2 := rest2.takeWhile isDig
              if ds2.isEmpty then (acc, rest)
              else groups fuel (acc ++ '.' :: ds2) (rest2.drop ds2.length)
          | _ => (acc, rest)
    let g := groups s.data.length ds (s.data.drop ds.length)
    match g.2.dropWhile pySpace, g.2.takeWhile pySpace with
    | c :: _, _ :: _ => if isWordChar c then some (String.mk g.1) else none
    | _, _ => none

/-- Python dict assignment for the reference map. -/
def dictInsertNat (m : List (String × Nat)) (k : String) (v : Nat) :
    List (String × Nat) :=
  if m.any (fun e => e.1 = k) then
    m.map fun e => if e.1 = k then (k, v) else e
  else m ++ [(k, v)]

/-- `_build_reference_map`: figure, table and section keys to paragraph
indices (three independent `if`s per paragraph). -/
def _build_reference_map (d : Document) : List (String × Nat) :=
  (d.paragraphs.enum.foldl
    (fun m ip =>
      let text := pyStrip ip.2.text
      let m := match figCaptionNum text with
        | some n => dictInsertNat m ("figure_" ++ n) ip.1
        | none => m
      let m := match tblCaptionNum text with
        | some n => dictInsertNat m ("table_" ++ n) ip.1
        | none => m
      match sectionNumOf text with
      | some n => dictInsertNat m ("section_" ++ n) ip.1
      | none => m)
    [])

/-- After a cross-reference keyword: `\s+` then the number (`\d+`, or
`\d+(?:\.\d+)*` for sections); returns (number, rest-after-match). -/
def refNumTail (dotted : Bool) (rest : List Char) :
    Option (String × List Char) :=
  let sp := rest.takeWhile pySpace
  if sp.isEmpty then none
  else
    let afterSp := rest.drop sp.length
    let ds := afterSp.takeWhile isDig
    if ds.isEmpty then none
    else if dotted then
      let rec dgroups : Nat → List Char → List Char → List Char × List Char
        | 0, acc, r => (acc, r)
        | fuel + 1, acc, r =>
            match r with
            | '.' :: r2 =>
                let ds2 := r2.takeWhile isDig
                if ds2.isEmpty then (acc, r)
                else dgroups fuel (acc ++ '.' :: ds2) (r2.drop ds2.length)
            | _ => (acc, r)
      let g := dgroups afterSp.length ds (afterSp.drop ds.length)
      some (String.mk g.1, g.2)
    else some (String.mk ds, afterSp.drop ds.length)

/-- Try one cross-reference pattern at the head of `cs`: the long keyword,
or (when the pattern has one) the abbreviated keyword with its optional dot.
The dot of `Fig\.?` / `Sec\.?` / `Eq\.?` backtracks: if the greedy
(dot-consuming) parse fails on `\s+`, the dot is given back. -/
def matchRefAt (long : String) (short : Option String) (dotted : Bool)
    (cs : List Char) : Option (String × List Char) :=
  (match matchLitCI long.data cs with
   | some rest => refNumTail dotted rest
   | none => none) <|>
  (match short with
   | none => none
   | some sh =>
       match matchLitCI sh.data cs with
       | some rest =>
           (match rest with
            | '.' :: rest2 => refNumTail dotted rest2
            | _ => none) <|> refNumTail dotted rest
       | none => none)

/-- Non-overlapping scan of one cross-reference pattern over a text
(`re.finditer` with IGNORECASE); returns the number groups. -/
def findRefAux (long : String) (short : Option String) (dotted : Bool) :
    Nat → List Char → List String
  | 0, _ => []
  | _ + 1, [] => []
  | fuel + 1, c :: cs =>
      match matchRefAt long short dotted (c :: cs) with
      | some (n, rest) => n :: findRefAux long short dotted fuel rest
      | none => findRefAux long short dotted fuel cs

/-- All cross-reference keys found in a run text, looping the five patterns
in source order: `(Figure|Fig\.?)\s+(\d+)`, `(Table)\s+(\d+)`,
`(Section|Sec\.?)\s+(\d+(?:\.\d+)*)`, `(Chapter)\s+(\d+)`,
`(Equation|Eq\.?)\s+(\d+)`. -/
def refKeysInText (s : String) : List String :=
  (findRefAux "figure" (some "fig") false s.data.length s.data).map
      (fun n => "figure_" ++ n) ++
  (findRefAux "table" none false s.data.length s.data).map
      (fun n => "table_" ++ n) ++
  (findRefAux "section" (some "sec") true s.data.length s.data).map
      (fun n => "section_" ++ n) ++
  (findRefAux "chapter" none false s.data.length s.data).map
      (fun n => "chapter_" ++ n) ++
  (findRefAux "equation" (some "eq") false s.data.length s.data).map
      (fun n => "equation_" ++ n)

/-- `fix_cross_references`: for every run of every body paragraph with
truthy text, if any pattern match's key is in the reference map, color the
run in link blue (the loop assigns the same color once per hit). -/
def fix_cross_references (d : Document) : Document :=
  let refMap := _build_reference_map d
  { d with
    blocks := d.blocks.map fun b =>
      match b with
      | Block.para p =>
          Block.para { p with
            children := p.children.map fun c =>
              match c with
              | PChild.run r =>
                  if r.text ≠ "" &&
                      (refKeysInText r.text).any
                        (fun k => refMap.any fun e => e.1 = k) then
                    PChild.run { r with font := { r.font with color := some ⟨0, 0, 238⟩ } }
                  else PChild.run r
              | other => other }
      | other => other }

/-! ## Pass 9: `apply_native_styles` (pdf.py lines 1138-1169) -/

/-- The monospace-family substrings tested by `apply_native_styles`. -/
def monoFamilies : List String := ["courier", "consolas", "mono", "code", "menlo"]

/-- `apply_native_styles`: set the `Normal` style (font Calibri 11pt, 8pt
after, 1.15 line spacing), give body paragraphs a default 8pt space-after,
and normalize run fonts (monospace families to Consolas; unset, empty or
`times`-containing names to Calibri — the source lower-cases the already
lower-cased name a second time, which is the identity). -/
def apply_native_styles (d : Document) : Document :=
  let d := { d with
    normal := { fontName := some "Calibri", fontSize := some (Pt 11),
                spaceAfter := some (Pt 8), lineSpacingHundredths := some 115 } }
  { d with
    blocks := d.blocks.map fun b =>
      match b with
      | Block.para p =>
          let p := if p.spaceAfter.isNone then { p with spaceAfter := some (Pt 8) } else p
          Block.para { p with
            children := p.children.map fun c =>
              match c with
              | PChild.run r =>
                  let fontName := pyLower ((r.font.name).getD "")
                  if monoFamilies.any (fun m => pyContains fontName m) then
                    PChild.run { r with font := { r.font with name := some "Consolas" } }
                  else if (r.font.name).getD "" = "" ||
                      pyContains (pyLower fontName) "times" then
                    PChild.run { r with font := { r.font with name := some "Calibri" } }
                  else PChild.run r
              | other => other }
      | other => other }

/-! ## `make_docx_native` (pdf.py lines 152-218) -/

/-- The nine-pass rewrite sequence of `make_docx_native` as a pure document
transformation (the `Document(...)` load, `doc.save(...)` store and the
enclosing `try`/`except` are modeled separately below). -/
def make_docx_native_doc (links : List PdfLink) (d : Document) : Document :=
  apply_native_styles
    (fix_cross_references
      (rebuild_list_of_figures_tables
        (rebuild_toc
          (rebuild_hyperlinks links
            (clean_headings
              (remove_all_paragraph_borders
                (remove_wrapper_tables
                  (set_page_margins d))))))))

/-- Run a sequence of rewrite steps, stopping at the first raised
exception.  Each pass of `make_docx_native` may raise in practice (the XML
mutation helpers are not total on real documents), which the embedding
represents by `Except`-valued steps. -/
def runRewriteSteps : List (Document → Except String Document) → Document →
    Except String Document
  | [], d => Except.ok d
  | f :: fs, d =>
      match f d with
      | Except.ok d2 => runRewriteSteps fs d2
      | Except.error e => Except.error e

/-- The document state reached when the step sequence stops: the result of
the last successful step (the "possibly partially rewritten document"). -/
def rewritePartial : List (Document → Except String Document) → Document →
    Document
  | [], d => d
  | f :: fs, d =>
      match f d with
      | Except.ok d2 => rewritePartial fs d2
      | Except.error _ => d

/-- `make_docx_native` including its `try`/`except`: the document is loaded
from disk, the rewrite sequence runs, and `doc.save` executes only if no
step raised — an exception jumps to the handler, which prints a note and
does not save, so the on-disk document stays as it was.  Returns the disk
contents afterwards and the logged note, if any. -/
def make_docx_native_io (steps : List (Document → Except String Document))
    (disk : Document) : Document × Option String :=
  match runRewriteSteps steps disk with
  | Except.ok d => (d, none)
  | Except.error e => (disk, some ("  Note: Could not clean document: " ++ e))

/-- The tail of `convert_pdf_to_docx_enhanced` after the converter ran:
when the output file exists, `make_docx_native` is invoked (its failures
are swallowed inside it) and the function returns success.  Returns
(reported success, disk contents). -/
def convert_pdf_to_docx_enhanced_post (outputCreated : Bool)
    (steps : List (Document → Except String Document)) (disk : Document) :
    Bool × Document :=
  if outputCreated then
    (true, (make_docx_native_io steps disk).1)
  else (false, disk)

/-! ## The TEX-to-DOCX pipeline (pipeline.py lines 36-72 and 125-166)

`compile_latex_to_pdf` and `clean_latex_auxiliary_files` live in
`converters/latex.py`, which is not present under `src/`; they are modelled
from the spec below.  The file-system state tracks the `_temp_pdf` directory
(with the intermediate PDF and the LaTeX auxiliary files it contains) and
the output DOCX. -/

/-- Contents of the `_temp_pdf` directory. -/
structure TempContents where
  pdf : Bool := false
  aux : Bool := false
deriving DecidableEq, Repr

/-- File-system state of one tex-to-docx conversion: the temporary
directory (`none` = does not exist) and the output DOCX. -/
structure TexFS where
  temp : Option TempContents := none
  outDocx : Bool := false
deriving DecidableEq, Repr

/-- Modelled from the spec: `compile_latex_to_pdf` (converters/latex.py,
not under src/) invokes the LaTeX compiler as a command-line process against
the `.tex` file; it produces the `.pdf` in the given output directory on
success and leaves auxiliary files (`.aux`, `.log`, `.toc`, …) there in
either case; failures surface as a `(success, result_or_error)` pair, not
as an exception. -/
def compile_latex_to_pdf (ok : Bool) (fs : TexFS) : TexFS × Bool :=
  let t := fs.temp.getD {}
  ({ fs with temp := some { t with pdf := ok, aux := true } }, ok)

/-- Modelled from the spec: `clean_latex_auxiliary_files`
(converters/latex.py, not under src/) deletes the LaTeX auxiliary files
from the given directory. -/
def clean_latex_auxiliary_files (fs : TexFS) : TexFS :=
  match fs.temp with
  | some t => { fs with temp := some { t with aux := false } }
  | none => fs

/-- `temp_dir.mkdir(parents=True, exist_ok=True)`. -/
def mkdirTemp (fs : TexFS) : TexFS :=
  match fs.temp with
  | some _ => fs
  | none => { fs with temp := some {} }

/-- `shutil.rmtree(temp_dir)` (the `try`/`except: pass` around it swallows
only OS errors; in the model deletion succeeds). -/
def rmtreeTemp (fs : TexFS) : TexFS := { fs with temp := none }

/-- The file-system effect of `convert_pdf_to_docx_enhanced` as seen by the
pipeline: the DOCX appears in the output directory on success. -/
def convert_pdf_to_docx_fs (ok : Bool) (fs : TexFS) : TexFS × Bool :=
  ({ fs with outDocx := fs.outDocx || ok }, ok)

/-- `convert_single_tex_to_docx`: make the temp dir, compile into it; on
compile failure remove the temp dir and report failure; otherwise convert
the PDF, clean the auxiliary files, remove the temp dir and report the
converter's outcome. -/
def convert_single_tex_to_docx (compileOk convertOk : Bool) (fs : TexFS) :
    TexFS × Bool :=
  let fs := mkdirTemp fs
  let r1 := compile_latex_to_pdf compileOk fs
  if !r1.2 then (rmtreeTemp r1.1, false)
  else
    let r2 := convert_pdf_to_docx_fs convertOk r1.1
    let fs := clean_latex_auxiliary_files r2.1
    (rmtreeTemp fs, r2.2)

/-- `convert_tex_to_docx` (batch): one shared temp dir; per file compile
(on failure count and `continue` — no per-file cleanup), else convert,
count, and clean the auxiliary files; after the loop remove the temp dir.
Returns (state, successes, failures). -/
def convert_tex_to_docx (outcomes : List (Bool × Bool)) (fs : TexFS) :
    TexFS × Nat × Nat :=
  let fs := mkdirTemp fs
  let r := outcomes.foldl
    (fun (acc : TexFS × Nat × Nat) oc =>
      let r1 := compile_latex_to_pdf oc.1 acc.1
      if !r1.2 then (r1.1, acc.2.1, acc.2.2 + 1)
      else
        let r2 := convert_pdf_to_docx_fs oc.2 r1.1
        let counts :=
          if r2.2 then (acc.2.1 + 1, acc.2.2) else (acc.2.1, acc.2.2 + 1)
        (clean_latex_auxiliary_files r2.1, counts.1, counts.2))
    (fs, 0, 0)
  (rmtreeTemp r.1, r.2.1, r.2.2)

/-! ## Definitions used by the individual claims -/

/-- The table-classification rules as the specification words them (ordered
rule evaluation, first match wins; every rule outputs "wrapper", so the
chain is a disjunction): 1 row and 1 column; 1 row and at most 2 columns;
at most 2 rows with concatenated cell text shorter than 200 characters and
exactly 1 row; otherwise a data table. -/
def specTableIsWrapper (t : Table) : Bool :=
  let rows := t.rows.length
  let cols := t.gridCols
  (rows = 1 && cols = 1) ||
  (rows = 1 && cols ≤ 2) ||
  (rows ≤ 2 && decide ((tableCellText t).length < 200) && rows = 1)

/-- A single-cell wrapper table whose `w:tblPr` element is absent. -/
def c3tblNoPr : Table := { tblPr := none, gridCols := 1, rows := [[{}]] }

/-- A single-cell wrapper table with table-level shading in its `w:tblPr`. -/
def c3tblShd : Table :=
  { tblPr := some { shd := some { fill := some "FF0000" } }, gridCols := 1,
    rows := [[{}]] }

/-- A data table (3 rows, 2 columns) without a `w:tblPr`. -/
def c3tblData : Table :=
  { tblPr := none, gridCols := 2, rows := [[{}, {}], [{}, {}], [{}, {}]] }

/-- A cell with borders and shading in its `w:tcPr`. -/
def c3cell : Cell :=
  { tcPr := some { borders := some { top := some { val := "single" } },
                   shd := some { fill := some "F5F5F5" } } }

/-- A heading paragraph used by the TOC examples. -/
def headingPara : Paragraph :=
  { styleName := "Heading 1", children := [PChild.run { text := "Alpha" }] }

/-- A paragraph whose stripped lower-cased text is the TOC title `toc`. -/
def tocPara : Paragraph :=
  { styleName := "Normal", children := [PChild.run { text := "toc" }] }

/-- A document with one heading and one TOC-title paragraph. -/
def docHeadingToc : Document :=
  { blocks := [Block.para headingPara, Block.para tocPara] }

/-- A document with a TOC-title paragraph and no headings at all. -/
def docTocOnly : Document := { blocks := [Block.para tocPara] }

/-- A rewrite step that succeeds and changes the document. -/
def c4step1 : Document → Except String Document :=
  fun d => Except.ok { d with blocks := [] }

/-- A rewrite step that raises. -/
def c4step2 : Document → Except String Document :=
  fun _ => Except.error "boom"

/-- A failing rewrite sequence whose first step already changed the
document. -/
def c4steps : List (Document → Except String Document) := [c4step1, c4step2]

/-- The on-disk document before `make_docx_native` runs. -/
def c4disk : Document := docHeadingToc

/-- A style-less paragraph of 90 characters with one bold 16pt run: between
the 80-character bound of `_collect_headings` and the 100-character bound of
`clean_headings`. -/
def para90 : Paragraph :=
  { styleName := "Normal",
    children := [PChild.run { text := String.mk (List.replicate 90 'a'),
                              bold := some true,
                              font := { size := some (Pt 16) } }] }

/-- The fallback of `clean_headings` as the amended claim words it:
nonempty stripped text shorter than 100 characters and some run that is
bold with a truthy font size of at least 12pt. -/
def specCleanHeadingFallback (p : Paragraph) : Bool :=
  let text := pyStrip p.text
  decide (0 < text.length) && decide (text.length < 100) &&
  p.runs.any fun r =>
    r.bold = some true &&
    (r.font.size.elim false fun s => decide (0 < s) && decide (Pt 12 ≤ s))

/-- The fallback of `_collect_headings` as the amended claim words it:
nonempty stripped text shorter than 80 characters; only the first bold run
is examined, and its truthy size picks the level (16pt or more gives 1,
14pt gives 2, 12pt gives 3, anything smaller or unset gives none). -/
def specCollectFallback (p : Paragraph) : Option Nat :=
  let text := pyStrip p.text
  if 0 < text.length ∧ text.length < 80 then
    match p.runs.find? (fun r => r.bold = some true) with
    | some r =>
        r.font.size.bind fun s =>
          if s = 0 then none
          else if Pt 16 ≤ s then some 1
          else if Pt 14 ≤ s then some 2
          else if Pt 12 ≤ s then some 3
          else none
    | none => none
  else none

/-- A PDF-extracted hyperlink map whose URL has no scheme. -/
def c7map : List (String × String) := [("click here", "www.example.com")]

/-- A paragraph with one run matching the display text of `c7map`. -/
def c7para : Paragraph := { children := [PChild.run { text := "click here" }] }

/-- The single run of `c7para`. -/
def c7run : Run := { text := "click here" }

/-- Text contribution of one paragraph child: run text, the texts of the
runs wrapped in a hyperlink, nothing for bookmarks. -/
def pchildText : PChild → String
  | .run r => r.text
  | .hyperlink h => String.join (h.runs.map Run.text)
  | .bookmarkStart _ _ => ""
  | .bookmarkEnd _ => ""

/-- Full text of a paragraph including hyperlink-wrapped runs (unlike
python-docx `paragraph.text`, which drops them). -/
def paraFullText (p : Paragraph) : String :=
  String.join (p.children.map pchildText)

/-- The full texts of a cell's paragraphs. -/
def cellTexts (c : Cell) : List String := c.paragraphs.map paraFullText

/-- Structural skeleton of a table: its column count and the grid of its
cells' paragraph texts.  Everything the rewriter may legitimately change
(borders, shading, indent, run formatting) is projected away; the grid
shape and the text content remain. -/
def tableSkel (t : Table) : Nat × List (List (List String)) :=
  (t.gridCols, t.rows.map fun row => row.map cellTexts)

/-- Table skeleton of a block (`none` for paragraphs). -/
def blockTblSkel (b : Block) : Option (Nat × List (List (List String))) :=
  match b with
  | .tbl t => some (tableSkel t)
  | .para _ => none

/-- The sequence of table skeletons of a document's body, in order. -/
def Document.tableSkels (d : Document) : List (Nat × List (List (List String))) :=
  d.blocks.filterMap blockTblSkel

/-- A wrapper table whose only cell contains a bare URL. -/
def c9tbl : Table :=
  { tblPr := some {}, gridCols := 1,
    rows := [[{ tcPr := none,
                paragraphs := [{ children := [PChild.run { text := "www.example.com" }] }] }]] }

/-- A document consisting of that one table. -/
def c9doc : Document := { blocks := [Block.tbl c9tbl] }

/-- The children of the first paragraph of the first cell of the first
table. -/
def c9proj (d : Document) : Option (List PChild) :=
  (((d.tables.head?.bind fun t => t.rows.head?).bind fun row =>
      row.head?).bind fun c => c.paragraphs.head?).map Paragraph.children

/-- Decimal digit value of a character (inverse of `Nat.digitChar` below
10). -/
def charToDigit (c : Char) : Nat := c.toNat - '0'.toNat

/-- Decimal digit characters of a number, most significant first
(structural counterpart of `Nat.toDigitsCore`). -/
def natDigits (n : Nat) : List Char :=
  if _h : n < 10 then [Nat.digitChar n]
  else natDigits (n / 10) ++ [Nat.digitChar (n % 10)]
decreasing_by exact Nat.div_lt_self (by omega) (by omega)

/-- Value of a decimal digit string. -/
def digitsVal (l : List Char) : Nat :=
  l.foldl (fun a c => a * 10 + charToDigit c) 0

/-! ## Theorems -/

/-- Helper: the cell transform of the wrapper branch acts on `tcPr` as an
`Option.map`. -/
theorem remove_cell_formatting_tcPr (c : Cell) :
    (remove_cell_formatting c).tcPr =
      c.tcPr.map fun pr => { pr with borders := some nilFourBorders, shd := none } := by
  cases hc : c.tcPr <;> simp [remove_cell_formatting, hc]

/-- C2: the table classification of `remove_wrapper_tables` is exactly the
ordered rule list of the specification — 1×1, then 1 row with at most 2
columns, then (at most 2 rows, concatenated cell text under 200 characters,
exactly 1 row), otherwise a data table. -/
theorem table_classification_matches_spec (t : Table) :
    isWrapperTable t = specTableIsWrapper t := by
  unfold isWrapperTable specTableIsWrapper
  rcases hr : t.rows with _ | ⟨r, rs⟩ <;>
    simp only [hr, List.isEmpty_nil, List.isEmpty_cons, List.length_nil,
      List.length_cons, if_true, if_false, Bool.false_and, Bool.and_false] <;>
    split_ifs <;> simp_all

/-- C10: `_add_bookmark_to_paragraph` always places the `bookmarkStart` as
the first child of the paragraph and the `bookmarkEnd` as its last child,
and the end carries the same id as the start. -/
theorem bookmark_pair_well_formed (id : Nat) (name : String) (p : Paragraph) :
    ((_add_bookmark_to_paragraph id name p).children.head? =
      some (PChild.bookmarkStart id name)) ∧
    ((_add_bookmark_to_paragraph id name p).children.getLast? =
      some (PChild.bookmarkEnd id)) := by
  unfold _add_bookmark_to_paragraph
  refine ⟨rfl, ?_⟩
  show (PChild.bookmarkStart id name :: (p.children ++ [PChild.bookmarkEnd id])).getLast?
      = some (PChild.bookmarkEnd id)
  rw [← List.cons_append, List.getLast?_concat]

/-- C8: both tex-to-docx pipelines delete the `_temp_pdf` directory — and
with it the intermediate PDF and the LaTeX auxiliary files it holds — on
every path, whether compilation or conversion succeeded or failed. -/
theorem tex_to_docx_temp_cleanup :
    (∀ (c v : Bool) (fs : TexFS),
      ((convert_single_tex_to_docx c v fs).1).temp = none) ∧
    (∀ (outcomes : List (Bool × Bool)) (fs : TexFS),
      ((convert_tex_to_docx outcomes fs).1).temp = none) := by
  constructor
  · intro c v fs
    cases c <;>
      simp [convert_single_tex_to_docx, compile_latex_to_pdf, rmtreeTemp,
        clean_latex_auxiliary_files, convert_pdf_to_docx_fs, mkdirTemp]
  · intro outcomes fs
    simp [convert_tex_to_docx, rmtreeTemp]

/-- C3 counterexample: a wrapper table without a `w:tblPr` gets no nil
border entries at all (its `tblPr` stays absent), and a wrapper table with
table-level shading keeps that shading — contradicting "all table-level
border and shading properties stripped and explicit no-border entries
set". -/
theorem wrapper_cleanup_counterexample :
    isWrapperTable c3tblNoPr = true ∧
    (processTableForWrapper c3tblNoPr).tblPr = none ∧
    isWrapperTable c3tblShd = true ∧
    ((processTableForWrapper c3tblShd).tblPr.map TblPr.shd) =
      some (some { fill := some "FF0000" }) := by decide

/-- C3 amended: a wrapper table's existing `tblPr` has its borders replaced
by the six nil entries and its indent dropped (table-level shading is not
touched, and a table without `tblPr` is left without one); each cell's
existing `tcPr` gets the four nil borders with shading removed; every data
table ends up with the single-style weight-4 `BFBFBF` border on all six
positions. -/
theorem table_cleanup_amended (t : Table) :
    (isWrapperTable t = true →
      (processTableForWrapper t).tblPr =
        t.tblPr.map (fun pr => { pr with borders := some nilSixBorders, tblInd := none }) ∧
      (processTableForWrapper t).rows.map (List.map Cell.tcPr) =
        t.rows.map (List.map fun c =>
          c.tcPr.map fun pr => { pr with borders := some nilFourBorders, shd := none })) ∧
    (isWrapperTable t = false →
      ((processTableForWrapper t).tblPr.map TblPr.borders) =
        some (some cleanSixBorders)) := by
  constructor
  · intro hw
    unfold processTableForWrapper
    rw [hw]
    simp only [if_true]
    constructor
    · cases ht : t.tblPr <;> simp [remove_table_borders, ht]
    · cases ht : t.tblPr <;>
        simp [remove_table_borders, ht, List.map_map, Function.comp_def,
          remove_cell_formatting_tcPr]
  · intro hnw
    unfold processTableForWrapper
    rw [hnw]
    simp [apply_clean_table_style]

/-- C3 witness: the amended theorem applied to the shaded wrapper table and
to the 3×2 data table. -/
theorem table_cleanup_amended_witness :
    (isWrapperTable c3tblShd = true ∧
      ((processTableForWrapper c3tblShd).tblPr =
        c3tblShd.tblPr.map (fun pr => { pr with borders := some nilSixBorders, tblInd := none }) ∧
      (processTableForWrapper c3tblShd).rows.map (List.map Cell.tcPr) =
        c3tblShd.rows.map (List.map fun c =>
          c.tcPr.map fun pr => { pr with borders := some nilFourBorders, shd := none }))) ∧
    (isWrapperTable c3tblData = false ∧
      ((processTableForWrapper c3tblData).tblPr.map TblPr.borders) =
        some (some cleanSixBorders)) :=
  ⟨⟨by decide, (table_cleanup_amended c3tblShd).1 (by decide)⟩,
   ⟨by decide, (table_cleanup_amended c3tblData).2 (by decide)⟩⟩

/-- C4 counterexample: with a rewrite sequence whose first step changes the
document and whose second step raises, `make_docx_native` leaves the
on-disk document exactly as it was — the partially rewritten document is
not saved (the save call sits inside the `try` and is skipped) — while the
exception is logged. -/
theorem rewrite_failure_counterexample :
    (make_docx_native_io c4steps c4disk).1 = c4disk ∧
    rewritePartial c4steps c4disk ≠ c4disk ∧
    (make_docx_native_io c4steps c4disk).2 =
      some "  Note: Could not clean document: boom" := by decide

/-- C4 amended: any exception during the rewrite sequence is caught at the
top level of `make_docx_native` and logged, the save is skipped so the
output file keeps the content it had before the rewrite started, and the
enclosing conversion still reports success. -/
theorem rewrite_failure_amended (steps : List (Document → Except String Document))
    (disk : Document) (e : String)
    (h : runRewriteSteps steps disk = Except.error e) :
    make_docx_native_io steps disk =
      (disk, some ("  Note: Could not clean document: " ++ e)) ∧
    (convert_pdf_to_docx_enhanced_post true steps disk).1 = true := by
  unfold make_docx_native_io convert_pdf_to_docx_enhanced_post
  rw [h]
  exact ⟨rfl, rfl⟩

/-- C4 witness: the amended theorem at the concrete failing sequence. -/
theorem rewrite_failure_amended_witness :
    runRewriteSteps c4steps c4disk = Except.error "boom" ∧
    (make_docx_native_io c4steps c4disk =
      (c4disk, some ("  Note: Could not clean document: " ++ "boom")) ∧
     (convert_pdf_to_docx_enhanced_post true c4steps c4disk).1 = true) :=
  ⟨rfl, rewrite_failure_amended c4steps c4disk "boom" rfl⟩

/-- Helper: a substring test for a longer pattern implies one for its
prefix. -/
theorem subList_append_mono (hay pat ext : List Char)
    (h : subList hay (pat ++ ext) = true) : subList hay pat = true := by
  induction hay with
  | nil =>
      simp only [subList, List.isEmpty_iff] at h ⊢
      exact (List.append_eq_nil.mp h).1
  | cons c tl ih =>
      simp only [subList, Bool.or_eq_true] at h ⊢
      rcases h with h | h
      · exact Or.inl (List.isPrefixOf_iff_prefix.mpr
          ((List.prefix_append pat ext).trans (List.isPrefixOf_iff_prefix.mp h)))
      · exact Or.inr (ih h)

/-- Helper: `pyContains` is antitone in pattern extension. -/
theorem pyContains_mono (hay pre ext : String)
    (h : pyContains hay (pre ++ ext) = true) : pyContains hay pre = true := by
  unfold pyContains at h ⊢
  rw [String.data_append] at h
  exact subList_append_mono hay.data pre.data ext.data h

/-- Helper: a nonempty string has positive length. -/
theorem strLengthPos (s : String) (h : s ≠ "") : 0 < s.length := by
  cases s with
  | mk data =>
      cases data with
      | nil => exact absurd rfl h
      | cons c cs => simp [String.length]

/-- C5 counterexample: a style-less 90-character paragraph with a bold 16pt
run is a heading for `clean_headings` (bound 100) but not for
`_collect_headings` (bound 80) — the two fallbacks do not agree on the
claimed "length < 100" rule. -/
theorem heading_fallback_counterexample :
    clean_headings_is_heading para90 = true ∧
    headingLevelOf para90 = none ∧
    (pyStrip para90.text).length = 90 := by decide

/-- C5 amended: for style-less paragraphs, the `clean_headings` fallback is
"nonempty stripped text shorter than 100 characters with some bold run of
truthy size at least 12pt", while the `_collect_headings` fallback is
"nonempty stripped text shorter than 80 characters, judged on the first
bold run only, with levels 1/2/3 at 16/14/12pt of its truthy size". -/
theorem heading_fallback_amended (p : Paragraph)
    (hH : pyContains p.styleName "Heading" = false)
    (hT : pyContains p.styleName "Title" = false) :
    clean_headings_is_heading p = specCleanHeadingFallback p ∧
    headingLevelOf p = specCollectFallback p := by
  have hsub : ∀ ext : String, pyContains p.styleName ("Heading" ++ ext) = false := by
    intro ext
    rw [Bool.eq_false_iff]
    intro hc
    rw [pyContains_mono p.styleName "Heading" ext hc] at hH
    exact absurd hH (by decide)
  have h1 : pyContains p.styleName "Heading 1" = false := by
    have := hsub " 1"; rwa [show ("Heading" ++ " 1" : String) = "Heading 1" by decide] at this
  have h2 : pyContains p.styleName "Heading 2" = false := by
    have := hsub " 2"; rwa [show ("Heading" ++ " 2" : String) = "Heading 2" by decide] at this
  have h3 : pyContains p.styleName "Heading 3" = false := by
    have := hsub " 3"; rwa [show ("Heading" ++ " 3" : String) = "Heading 3" by decide] at this
  have h4 : pyContains p.styleName "Heading 4" = false := by
    have := hsub " 4"; rwa [show ("Heading" ++ " 4" : String) = "Heading 4" by decide] at this
  have hTne : p.styleName ≠ "Title" := by
    intro he; rw [he] at hT; exact absurd hT (by decide)
  have hfun : ∀ r : Run, (decide (r.bold = some true) &&
      match r.font.size with
      | some s => !decide (s = 0) && decide (s ≥ Pt 12)
      | none => false) =
    (decide (r.bold = some true) &&
      r.font.size.elim false fun s => decide (0 < s) && decide (Pt 12 ≤ s)) := by
    intro r
    cases hs : r.font.size with
    | none => simp
    | some s =>
        by_cases h0 : s = 0
        · subst h0; simp
        · simp [h0, Nat.pos_of_ne_zero h0, ge_iff_le]
  constructor
  · unfold clean_headings_is_heading specCleanHeadingFallback
    rw [hH, hT]
    simp only [Bool.or_self, Bool.false_or, if_false]
    rw [if_neg (show ¬(false = true) by decide)]
    simp only [hfun]
    by_cases hpos : 0 < (pyStrip p.text).length <;>
      by_cases hlt : (pyStrip p.text).length < 100 <;>
      simp [hpos, hlt, gt_iff_lt]
  · unfold headingLevelOf specCollectFallback
    rw [h1, h2, h3, h4, hH]
    simp only [decide_eq_false hTne, Bool.or_false, Bool.false_or,
      if_neg (show ¬(false = true) by decide)]
    by_cases ht0 : pyStrip p.text = ""
    · rw [if_pos ht0]
      simp [ht0]
    · rw [if_neg ht0]
      have hpos := strLengthPos _ ht0
      by_cases h80 : (pyStrip p.text).length < 80
      · rw [if_pos h80, if_pos ⟨hpos, h80⟩]
        cases hfind : List.find? (fun r => decide (r.bold = some true)) p.runs with
        | none => rfl
        | some r => cases hs : r.font.size <;> simp [hs]
      · rw [if_neg h80, if_neg (fun hc => absurd hc.2 h80)]

/-- C5 witness: the amended theorem at the 90-character paragraph. -/
theorem heading_fallback_amended_witness :
    pyContains para90.styleName "Heading" = false ∧
    pyContains para90.styleName "Title" = false ∧
    (clean_headings_is_heading para90 = specCleanHeadingFallback para90 ∧
     headingLevelOf para90 = specCollectFallback para90) :=
  ⟨by decide, by decide, heading_fallback_amended para90 (by decide) (by decide)⟩

/-- Helper: `relFindIdx` only answers with a matching element. -/
theorem relFindIdx_mem (rels : List (String × Bool)) (t : String) :
    ∀ i j, relFindIdx rels t i = some j → (t, true) ∈ rels := by
  induction rels with
  | nil => intro i j h; exact absurd h (by simp [relFindIdx])
  | cons e es ih =>
      intro i j h
      unfold relFindIdx at h
      by_cases he : e.1 = t && e.2
      · have : e = (t, true) := by
          have h1 := (Bool.and_eq_true _ _).mp he
          have : e.1 = t := by simpa using h1.1
          have h2 : e.2 = true := by simpa using h1.2
          cases e; simp_all
        rw [← this]; exact List.mem_cons_self e es
      · rw [if_neg he] at h
        exact List.mem_cons_of_mem e (ih (i + 1) j h)

/-- Helper: after `relateTo rels t`, an external relationship to `t` is
present. -/
theorem relateTo_mem_self (rels : List (String × Bool)) (t : String) :
    (t, true) ∈ (relateTo rels t).1 := by
  unfold relateTo
  cases h : relFindIdx rels t 0 with
  | some i => exact relFindIdx_mem rels t 0 i h
  | none => simp

/-- Helper: `relateTo` never removes a relationship. -/
theorem relateTo_mem_mono (rels : List (String × Bool)) (t : String)
    (x : String × Bool) (hx : x ∈ rels) : x ∈ (relateTo rels t).1 := by
  unfold relateTo
  cases relFindIdx rels t 0 with
  | some i => exact hx
  | none => exact List.mem_append_left _ hx

/-- Helper: folding `relateTo` over further targets keeps relationships. -/
theorem relateTo_foldl_mono (ms : List String) :
    ∀ (rels : List (String × Bool)) (x : String × Bool), x ∈ rels →
      x ∈ ms.foldl (fun rl m2 => (relateTo rl (normalizeUrl m2)).1) rels := by
  induction ms with
  | nil => intro rels x hx; exact hx
  | cons m ms ih =>
      intro rels x hx
      exact ih _ x (relateTo_mem_mono rels (normalizeUrl m) x hx)

/-- Helper: the PDF-map step only grows the relationship list. -/
theorem hlMapStep_mono (urlMap : List (String × String))
    (rels : List (String × Bool)) (c : PChild) (x : String × Bool)
    (hx : x ∈ rels) : x ∈ (hlMapStep urlMap rels c).1 := by
  cases c with
  | run r =>
      simp only [hlMapStep]
      by_cases hr : r.text ≠ ""
      · rw [if_pos hr]
        cases mapLookup urlMap (pyLower (pyStrip r.text)) with
        | some url => exact relateTo_mem_mono rels _ x hx
        | none => exact hx
      · rw [if_neg hr]; exact hx
  | hyperlink h => exact hx
  | bookmarkStart id name => exact hx
  | bookmarkEnd id => exact hx

/-- Helper: the URL-regex step only grows the relationship list. -/
theorem hlRegexStep_mono (rels : List (String × Bool)) (c : PChild)
    (x : String × Bool) (hx : x ∈ rels) : x ∈ (hlRegexStep rels c).1 := by
  cases c with
  | run r =>
      simp only [hlRegexStep]
      by_cases hr : r.text ≠ ""
      · rw [if_pos hr]
        cases findUrlMatches r.text with
        | nil => exact hx
        | cons m ms =>
            exact relateTo_foldl_mono ms _ x (relateTo_mem_mono rels _ x hx)
      · rw [if_neg hr]; exact hx
  | hyperlink h => exact hx
  | bookmarkStart id name => exact hx
  | bookmarkEnd id => exact hx

/-- Helper: a state-monotone step makes `mapAccumL` state-monotone. -/
theorem mapAccumL_state_mono {σ α β : Type} (f : σ → α → σ × β)
    (P : σ → Prop) (hf : ∀ s a, P s → P (f s a).1) :
    ∀ (l : List α) (s : σ), P s → P (mapAccumL f s l).1 := by
  intro l
  induction l with
  | nil => intro s hs; exact hs
  | cons a l ih => intro s hs; exact ih (f s a).1 (hf s a hs)

/-- Helper: a step that fixes hyperlink children keeps them in the output
of `mapAccumL`. -/
theorem mapAccumL_hyperlink_mem {σ : Type} (f : σ → PChild → σ × PChild)
    (hf : ∀ s h, f s (PChild.hyperlink h) = (s, PChild.hyperlink h))
    (h : Hyperlink) :
    ∀ (l : List PChild) (s : σ), PChild.hyperlink h ∈ l →
      PChild.hyperlink h ∈ (mapAccumL f s l).2 := by
  intro l
  induction l with
  | nil => intro s hs; exact absurd hs (List.not_mem_nil _)
  | cons c l ih =>
      intro s hs
      rcases List.mem_cons.mp hs with hc | hc
      · subst hc
        show PChild.hyperlink h ∈ (mapAccumL f s (PChild.hyperlink h :: l)).2
        unfold mapAccumL
        rw [hf s h]
        exact List.mem_cons_self _ _
      · show _ ∈ (mapAccumL f s (c :: l)).2
        unfold mapAccumL
        exact List.mem_cons_of_mem _ (ih (f s c).1 hc)

/-- Helper: the PDF-map loop wraps a matching run into a styled hyperlink
and records the relationship to the normalized URL. -/
theorem hlMapLoop_wraps (urlMap : List (String × String)) (r : Run)
    (url : String) (hne : r.text ≠ "")
    (hlook : mapLookup urlMap (pyLower (pyStrip r.text)) = some url) :
    ∀ (l : List PChild) (st : List (String × Bool)), PChild.run r ∈ l →
      (∃ rid, PChild.hyperlink { rId := some rid, anchor := none, runs := [styleLinkRun r] } ∈
        (mapAccumL (hlMapStep urlMap) st l).2) ∧
      (normalizeUrl url, true) ∈ (mapAccumL (hlMapStep urlMap) st l).1 := by
  intro l
  induction l with
  | nil => intro st hs; exact absurd hs (List.not_mem_nil _)
  | cons c l ih =>
      intro st hs
      rcases List.mem_cons.mp hs with hc | hc
      · subst hc
        have hstep : hlMapStep urlMap st (PChild.run r) =
            ((relateTo st (normalizeUrl url)).1,
              PChild.hyperlink { rId := some (relateTo st (normalizeUrl url)).2,
                                 anchor := none, runs := [styleLinkRun r] }) := by
          simp only [hlMapStep]
          rw [if_pos hne, hlook]
        constructor
        · refine ⟨(relateTo st (normalizeUrl url)).2, ?_⟩
          show _ ∈ (mapAccumL (hlMapStep urlMap) st (PChild.run r :: l)).2
          unfold mapAccumL
          rw [hstep]
          exact List.mem_cons_self _ _
        · show _ ∈ (mapAccumL (hlMapStep urlMap) st (PChild.run r :: l)).1
          unfold mapAccumL
          rw [hstep]
          exact mapAccumL_state_mono (hlMapStep urlMap) _
            (fun s a hmem => hlMapStep_mono urlMap s a _ hmem) l _
            (relateTo_mem_self st (normalizeUrl url))
      · show (∃ rid, _ ∈ (mapAccumL (hlMapStep urlMap) st (c :: l)).2) ∧
          _ ∈ (mapAccumL (hlMapStep urlMap) st (c :: l)).1
        unfold mapAccumL
        rcases ih (hlMapStep urlMap st c).1 hc with ⟨⟨rid, hmem⟩, hrel⟩
        exact ⟨⟨rid, List.mem_cons_of_mem _ hmem⟩, hrel⟩

/-- C7 counterexample: for a run matching a PDF link whose URL is
`www.example.com`, the document's relationship list afterwards contains
only the prefixed `https://www.example.com` — no clickable relationship to
the link's URL itself is created. -/
theorem hyperlink_url_counterexample :
    mapLookup c7map (pyLower (pyStrip c7run.text)) = some "www.example.com" ∧
    (processParagraphForHyperlinks c7map [] c7para).1 =
      [("https://www.example.com", true)] ∧
    (("www.example.com", true) ∈ (processParagraphForHyperlinks c7map [] c7para).1) = False := by
  refine ⟨by decide, by decide, ?_⟩
  simp only [eq_iff_iff, iff_false]
  decide

/-- C7 amended: a run whose stripped lower-cased text is a key of the PDF
url map ends up wrapped in a hyperlink element carrying a relationship to
the link's URL after scheme normalization (`https://` prefixed to `www.`
URLs, `mailto:` to addresses containing `@`), and the wrapped run is styled
blue (0,0,238) and underlined with its text unchanged. -/
theorem pdf_hyperlink_amended (urlMap : List (String × String))
    (st : List (String × Bool)) (p : Paragraph) (r : Run) (url : String)
    (hmem : PChild.run r ∈ p.children) (hne : r.text ≠ "")
    (hlook : mapLookup urlMap (pyLower (pyStrip r.text)) = some url) :
    ((normalizeUrl url, true) ∈ (processParagraphForHyperlinks urlMap st p).1) ∧
    (∃ rid, PChild.hyperlink { rId := some rid, anchor := none, runs := [styleLinkRun r] } ∈
      (processParagraphForHyperlinks urlMap st p).2.children) ∧
    (styleLinkRun r).font.color = some ⟨0, 0, 238⟩ ∧
    (styleLinkRun r).font.underline = some true ∧
    (styleLinkRun r).text = r.text := by
  have hmem1 : PChild.run r ∈ p.children.map (fun c =>
      match c with
      | PChild.hyperlink h => PChild.hyperlink (style_hyperlink_runs h)
      | other => other) := by
    rcases List.mem_map.mpr ⟨PChild.run r, hmem, rfl⟩ with h
    exact h
  have hstage2 := hlMapLoop_wraps urlMap r url hne hlook _ st hmem1
  unfold processParagraphForHyperlinks
  by_cases hempty : (findUrlMatches p.text).isEmpty
  · simp only [hempty, if_true]
    exact ⟨hstage2.2, hstage2.1, rfl, rfl, rfl⟩
  · simp only [hempty, if_false]
    rcases hstage2 with ⟨⟨rid, hhl⟩, hrel⟩
    refine ⟨?_, ⟨rid, ?_⟩, rfl, rfl, rfl⟩
    · exact mapAccumL_state_mono hlRegexStep _
        (fun s a hmem2 => hlRegexStep_mono s a _ hmem2) _ _ hrel
    · exact mapAccumL_hyperlink_mem hlRegexStep (fun s h => rfl) _ _ _ hhl

/-- C7 witness: the amended theorem at the concrete map and paragraph. -/
theorem pdf_hyperlink_amended_witness :
    (PChild.run c7run ∈ c7para.children) ∧ c7run.text ≠ "" ∧
    mapLookup c7map (pyLower (pyStrip c7run.text)) = some "www.example.com" ∧
    (((normalizeUrl "www.example.com", true) ∈
        (processParagraphForHyperlinks c7map [] c7para).1) ∧
     (∃ rid,
        PChild.hyperlink { rId := some rid, anchor := none, runs := [styleLinkRun c7run] } ∈
          (processParagraphForHyperlinks c7map [] c7para).2.children) ∧
     (styleLinkRun c7run).font.color = some ⟨0, 0, 238⟩ ∧
     (styleLinkRun c7run).font.underline = some true ∧
     (styleLinkRun c7run).text = c7run.text) :=
  ⟨by decide, by decide, by decide,
   pdf_hyperlink_amended c7map [] c7para c7run "www.example.com"
     (by decide) (by decide) (by decide)⟩

/-! ### Decimal-representation injectivity (for bookmark-name uniqueness) -/

/-- Helper: `charToDigit` inverts `Nat.digitChar` below 10. -/
theorem charToDigit_digitChar : ∀ d < 10, charToDigit (Nat.digitChar d) = d := by decide

/-- Helper: with enough fuel, core's `Nat.toDigitsCore` is `natDigits`. -/
theorem toDigitsCore_eq_natDigits :
    ∀ (f n : Nat) (ds : List Char), n < f →
      Nat.toDigitsCore 10 f n ds = natDigits n ++ ds := by
  intro f
  induction f with
  | zero => intro n ds h; omega
  | succ f ih =>
      intro n ds h
      show (if n / 10 = 0 then (n % 10).digitChar :: ds
            else Nat.toDigitsCore 10 f (n / 10) ((n % 10).digitChar :: ds)) =
        natDigits n ++ ds
      by_cases h0 : n / 10 = 0
      · have hn : n < 10 := by omega
        rw [if_pos h0, natDigits, dif_pos hn, Nat.mod_eq_of_lt hn]
        rfl
      · have hn : ¬ n < 10 := fun hlt => h0 (Nat.div_eq_of_lt hlt)
        have hdiv : n / 10 < n := Nat.div_lt_self (by omega) (by omega)
        rw [if_neg h0, ih (n / 10) ((n % 10).digitChar :: ds) (by omega)]
        conv_rhs => rw [natDigits, dif_neg hn]
        rw [List.append_assoc]
        rfl

/-- Helper: `digitsVal` recovers the number from `natDigits`. -/
theorem digitsVal_natDigits (n : Nat) : digitsVal (natDigits n) = n := by
  induction n using Nat.strong_induction_on with
  | _ n ih =>
      by_cases h : n < 10
      · rw [natDigits, dif_pos h]
        show 0 * 10 + charToDigit (Nat.digitChar n) = n
        rw [charToDigit_digitChar n h]; omega
      · have hdiv : n / 10 < n := Nat.div_lt_self (by omega) (by omega)
        rw [natDigits, dif_neg h]
        have hconcat : digitsVal (natDigits (n / 10) ++ [(n % 10).digitChar]) =
            digitsVal (natDigits (n / 10)) * 10 + charToDigit ((n % 10).digitChar) := by
          unfold digitsVal
          rw [List.foldl_append]
          rfl
        rw [hconcat, ih (n / 10) hdiv, charToDigit_digitChar (n % 10) (by omega)]
        omega

/-- Helper: `Nat.repr` is injective. -/
theorem natRepr_inj (a b : Nat) (h : Nat.repr a = Nat.repr b) : a = b := by
  have hd : Nat.toDigits 10 a = Nat.toDigits 10 b := congrArg String.data h
  have ha : Nat.toDigits 10 a = natDigits a := by
    have := toDigitsCore_eq_natDigits (a + 1) a [] (by omega)
    simpa [Nat.toDigits] using this
  have hb : Nat.toDigits 10 b = natDigits b := by
    have := toDigitsCore_eq_natDigits (b + 1) b [] (by omega)
    simpa [Nat.toDigits] using this
  rw [ha, hb] at hd
  rw [← digitsVal_natDigits a, ← digitsVal_natDigits b, hd]

/-- Helper: the `_Toc⟨i⟩` bookmark names are injective in the index. -/
theorem tocBookmark_inj (i j : Nat)
    (h : "_Toc" ++ Nat.repr i = "_Toc" ++ Nat.repr j) : i = j := by
  have hd := congrArg String.data h
  rw [String.data_append, String.data_append] at hd
  have := List.append_cancel_left hd
  exact natRepr_inj i j (by
    cases hri : Nat.repr i with
    | mk di =>
        cases hrj : Nat.repr j with
        | mk dj =>
            rw [hri, hrj] at this
            simpa using congrArg String.mk this)

/-! ### Paragraph-index bookkeeping for the TOC pass -/

/-- Helper: `updateParaAt` preserves the block-list length. -/
theorem updateParaAt_length (f : Paragraph → Paragraph) :
    ∀ (bs : List Block) (n : Nat), (updateParaAt f bs n).length = bs.length := by
  intro bs
  induction bs with
  | nil => intro n; rfl
  | cons b bs ih =>
      intro n
      cases b with
      | para p => cases n with
        | zero => rfl
        | succ n => simpa [updateParaAt] using ih n
      | tbl t => simpa [updateParaAt] using ih n

/-- Helper: `updateParaAt` preserves the number of paragraphs. -/
theorem updateParaAt_paras_length (f : Paragraph → Paragraph) :
    ∀ (bs : List Block) (n : Nat),
      (parasOfBlocks (updateParaAt f bs n)).length = (parasOfBlocks bs).length := by
  intro bs
  induction bs with
  | nil => intro n; rfl
  | cons b bs ih =>
      intro n
      cases b with
      | para p => cases n with
        | zero => simp [updateParaAt, parasOfBlocks]
        | succ n => simpa [updateParaAt, parasOfBlocks] using ih n
      | tbl t => simpa [updateParaAt, parasOfBlocks] using ih n

/-- Helper: `updateParaAt` does not move paragraph positions. -/
theorem blockIdx_updateParaAt (f : Paragraph → Paragraph) :
    ∀ (bs : List Block) (n m : Nat),
      blockIdxOfParaIdx (updateParaAt f bs n) m = blockIdxOfParaIdx bs m := by
  intro bs
  induction bs with
  | nil => intro n m; rfl
  | cons b bs ih =>
      intro n m
      cases b with
      | para p =>
          cases n with
          | zero => cases m <;> rfl
          | succ n =>
              cases m with
              | zero => rfl
              | succ m => simp [updateParaAt, blockIdxOfParaIdx, ih n m]
      | tbl t => simp [updateParaAt, blockIdxOfParaIdx, ih n m]

/-- Helper: a paragraph index inside the paragraph count resolves to a
block index. -/
theorem blockIdx_isSome_of_lt :
    ∀ (bs : List Block) (n : Nat), n < (parasOfBlocks bs).length →
      ∃ bi, blockIdxOfParaIdx bs n = some bi := by
  intro bs
  induction bs with
  | nil => intro n h; simp [parasOfBlocks] at h
  | cons b bs ih =>
      intro n h
      cases b with
      | para p =>
          cases n with
          | zero => exact ⟨0, rfl⟩
          | succ n =>
              have hlen : n < (parasOfBlocks bs).length := by
                simpa [parasOfBlocks] using h
              rcases ih n hlen with ⟨bi, hbi⟩
              exact ⟨bi + 1, by simp [blockIdxOfParaIdx, hbi]⟩
      | tbl t =>
          have hlen : n < (parasOfBlocks bs).length := by
            simpa [parasOfBlocks] using h
          rcases ih n hlen with ⟨bi, hbi⟩
          exact ⟨bi + 1, by simp [blockIdxOfParaIdx, hbi]⟩

/-- Helper: a resolved block index is inside the block list. -/
theorem blockIdx_lt_length :
    ∀ (bs : List Block) (n bi : Nat), blockIdxOfParaIdx bs n = some bi →
      bi < bs.length := by
  intro bs
  induction bs with
  | nil => intro n bi h; exact absurd h (by simp [blockIdxOfParaIdx])
  | cons b bs ih =>
      intro n bi h
      cases b with
      | para p =>
          cases n with
          | zero =>
              cases h
              simp
          | succ n =>
              rcases Option.map_eq_some'.mp h with ⟨bj, hbj, rfl⟩
              have := ih n bj hbj
              simpa using Nat.succ_lt_succ this
      | tbl t =>
          rcases Option.map_eq_some'.mp h with ⟨bj, hbj, rfl⟩
          have := ih n bj hbj
          simpa using Nat.succ_lt_succ this

/-- Helper: the bookmark fold of `_add_toc_field` keeps every paragraph at
its block position and preserves both lengths. -/
theorem tocBookmarkedBlocks_invariants (d : Document) (headings : List HeadingInfo) :
    (∀ m, blockIdxOfParaIdx (tocBookmarkedBlocks d headings) m =
      blockIdxOfParaIdx d.blocks m) ∧
    (tocBookmarkedBlocks d headings).length = d.blocks.length ∧
    (parasOfBlocks (tocBookmarkedBlocks d headings)).length =
      (parasOfBlocks d.blocks).length := by
  unfold tocBookmarkedBlocks
  generalize d.blocks = bs
  induction headings generalizing bs with
  | nil => exact ⟨fun m => rfl, rfl, rfl⟩
  | cons h hs ih =>
      simp only [List.foldl_cons]
      by_cases hc : h.index < d.paragraphs.length
      · rw [if_pos hc]
        rcases ih (updateParaAt (_add_bookmark_to_paragraph bookmarkIdConst h.bookmark) bs h.index)
          with ⟨hidx, hlen, hplen⟩
        exact ⟨fun m => (hidx m).trans (blockIdx_updateParaAt _ bs h.index m),
          hlen.trans (updateParaAt_length _ bs h.index),
          hplen.trans (updateParaAt_paras_length _ bs h.index)⟩
      · rw [if_neg hc]
        exact ih bs

/-- Helper: a found TOC title index is a valid paragraph index. -/
theorem tocTitle_lt (d : Document) (i : Nat) (ht : tocTitleParaIdx d = some i) :
    i < d.paragraphs.length := by
  unfold tocTitleParaIdx at ht
  rcases List.exists_of_findSome?_eq_some ht with ⟨ip, hmem, hf⟩
  have hi : ip.1 = i := by
    dsimp only at hf
    by_cases hb : (decide (pyLower (pyStrip ip.2.text) = "contents") ||
        decide (pyLower (pyStrip ip.2.text) = "table of contents") ||
        decide (pyLower (pyStrip ip.2.text) = "toc")) = true
    · rw [if_pos hb] at hf
      exact Option.some.inj hf
    · rw [if_neg hb] at hf
      exact absurd hf (by simp)
  have : ip.1 ∈ d.paragraphs.enum.map Prod.fst := List.mem_map_of_mem Prod.fst hmem
  rw [List.enum_map_fst] at this
  rw [← hi]
  exact List.mem_range.mp this

/-- C1 counterexample: running `make_docx_native` twice on a document with
one heading and a `toc` title paragraph is not the same as running it once —
the second run inserts a second TOC field paragraph (body grows from 3 to 4
blocks). -/
theorem rewriter_not_idempotent :
    make_docx_native_doc [] (make_docx_native_doc [] docHeadingToc) ≠
      make_docx_native_doc [] docHeadingToc := by
  intro h
  have ha : (make_docx_native_doc [] (make_docx_native_doc [] docHeadingToc)).blocks.length
      = 4 := by decide
  have hb : (make_docx_native_doc [] docHeadingToc).blocks.length = 3 := by decide
  rw [h, hb] at ha
  exact absurd ha (by decide)

/-- C1 amended: the Structural Rewriter is not idempotent — whenever
`_collect_headings` finds at least one heading and a TOC-title paragraph
exists, `rebuild_toc` grows the body by exactly one block (the freshly
inserted TOC field paragraph), so every further run accumulates another
copy. -/
theorem toc_growth (d : Document) (i : Nat)
    (hh : _collect_headings d ≠ []) (ht : tocTitleParaIdx d = some i) :
    (rebuild_toc d).blocks.length = d.blocks.length + 1 := by
  have hne : (_collect_headings d).isEmpty = false := by
    rw [List.isEmpty_eq_false]
    exact hh
  simp only [rebuild_toc, hne, Bool.false_eq_true, if_false, ht, _add_toc_field]
  rcases tocBookmarkedBlocks_invariants d (_collect_headings d) with ⟨hidx, hlen, hplen⟩
  have hi : i < d.paragraphs.length := tocTitle_lt d i ht
  rcases blockIdx_isSome_of_lt d.blocks i hi with ⟨bi, hbi⟩
  have hbi2 : blockIdxOfParaIdx (tocBookmarkedBlocks d (_collect_headings d)) i = some bi :=
    (hidx i).trans hbi
  rw [hbi2]
  have hblt : bi < (tocBookmarkedBlocks d (_collect_headings d)).length := by
    rw [hlen]
    exact blockIdx_lt_length d.blocks i bi hbi
  show ((tocBookmarkedBlocks d (_collect_headings d)).insertIdx (bi + 1)
      (Block.para tocFieldParagraph)).length = d.blocks.length + 1
  rw [List.length_insertIdx (bi + 1) _ (by omega), hlen]

/-- C1 witness: the growth theorem at the concrete heading-plus-title
document. -/
theorem toc_growth_witness :
    _collect_headings docHeadingToc ≠ [] ∧
    tocTitleParaIdx docHeadingToc = some 1 ∧
    (rebuild_toc docHeadingToc).blocks.length = docHeadingToc.blocks.length + 1 :=
  ⟨by decide, by decide, toc_growth docHeadingToc 1 (by decide) (by decide)⟩

/-- C6 counterexample: a document containing a TOC-title paragraph but no
headings gets no TOC field paragraph at all — `rebuild_toc` returns before
looking for the title, contradicting "inserts exactly one field-code
paragraph". -/
theorem toc_no_headings_counterexample :
    tocTitleParaIdx docTocOnly = some 0 ∧
    rebuild_toc docTocOnly = docTocOnly ∧
    (rebuild_toc docTocOnly).blocks.length = docTocOnly.blocks.length := by decide

/-- C6 amended: when the document has a TOC-title paragraph AND
`_collect_headings` finds at least one heading, the collected headings
receive pairwise-distinct bookmark names, and the TOC pass inserts exactly
one field-code paragraph (field begin, the `TOC \o "1-3" \h \z \u`
instruction, separator, refresh placeholder, field end) immediately after
the title paragraph's block. -/
theorem toc_insertion_amended (d : Document) (i : Nat)
    (hh : _collect_headings d ≠ []) (ht : tocTitleParaIdx d = some i) :
    ((_collect_headings d).Pairwise fun a b => a.bookmark ≠ b.bookmark) ∧
    ∃ bi, blockIdxOfParaIdx (tocBookmarkedBlocks d (_collect_headings d)) i = some bi ∧
      (rebuild_toc d).blocks =
        (tocBookmarkedBlocks d (_collect_headings d)).insertIdx (bi + 1)
          (Block.para tocFieldParagraph) := by
  constructor
  · unfold _collect_headings
    rw [List.pairwise_filterMap]
    have henum : d.paragraphs.enum.Pairwise (fun a b => a.1 < b.1) := by
      have hr := List.pairwise_lt_range d.paragraphs.length
      rw [← List.enum_map_fst d.paragraphs, List.pairwise_map] at hr
      exact hr
    refine henum.imp ?_
    intro a b hab x hx y hy
    have hxb : x.bookmark = "_Toc" ++ Nat.repr a.1 := by
      revert hx
      cases headingLevelOf a.2 with
      | none => intro hx; exact absurd hx (by simp)
      | some lvl => intro hx; rw [← Option.some.inj hx]
    have hyb : y.bookmark = "_Toc" ++ Nat.repr b.1 := by
      revert hy
      cases headingLevelOf b.2 with
      | none => intro hy; exact absurd hy (by simp)
      | some lvl => intro hy; rw [← Option.some.inj hy]
    rw [hxb, hyb]
    intro he
    exact absurd (tocBookmark_inj a.1 b.1 he) (by omega)
  · have hne : (_collect_headings d).isEmpty = false := by
      rw [List.isEmpty_eq_false]
      exact hh
    rcases tocBookmarkedBlocks_invariants d (_collect_headings d) with ⟨hidx, hlen, hplen⟩
    have hi : i < d.paragraphs.length := tocTitle_lt d i ht
    rcases blockIdx_isSome_of_lt d.blocks i hi with ⟨bi, hbi⟩
    have hbi2 : blockIdxOfParaIdx (tocBookmarkedBlocks d (_collect_headings d)) i = some bi :=
      (hidx i).trans hbi
    refine ⟨bi, hbi2, ?_⟩
    simp only [rebuild_toc, hne, Bool.false_eq_true, if_false, ht, _add_toc_field]
    rw [hbi2]

/-- C6 witness: the amended theorem at the concrete heading-plus-title
document. -/
theorem toc_insertion_amended_witness :
    _collect_headings docHeadingToc ≠ [] ∧
    tocTitleParaIdx docHeadingToc = some 1 ∧
    (((_collect_headings docHeadingToc).Pairwise fun a b => a.bookmark ≠ b.bookmark) ∧
     ∃ bi, blockIdxOfParaIdx
         (tocBookmarkedBlocks docHeadingToc (_collect_headings docHeadingToc)) 1 = some bi ∧
       (rebuild_toc docHeadingToc).blocks =
         (tocBookmarkedBlocks docHeadingToc (_collect_headings docHeadingToc)).insertIdx
           (bi + 1) (Block.para tocFieldParagraph)) :=
  ⟨by decide, by decide, toc_insertion_amended docHeadingToc 1 (by decide) (by decide)⟩

/-! ### Table-skeleton preservation (C9) -/

/-- Helper: appending to the empty string is the identity. -/
theorem str_empty_append (s : String) : "" ++ s = s := by
  cases s
  rfl

/-- Helper: joining a singleton list of strings. -/
theorem strJoin_singleton (s : String) : String.join [s] = s := str_empty_append s

/-- Helper: `cleanRunShd` does not touch the run text. -/
theorem cleanRunShd_text (r : Run) : (cleanRunShd r).text = r.text := by
  cases hs : r.shd with
  | none => simp [cleanRunShd, hs]
  | some s =>
      cases hf : s.fill with
      | none => simp [cleanRunShd, hs, hf]
      | some f =>
          simp only [cleanRunShd, hs, hf]
          split <;> rfl

/-- Helper: mapping a text-preserving child transform keeps the joined
text. -/
theorem joinText_map (cs : List PChild) (f : PChild → PChild)
    (hf : ∀ c, pchildText (f c) = pchildText c) :
    String.join ((cs.map f).map pchildText) = String.join (cs.map pchildText) := by
  rw [List.map_map]
  exact congrArg String.join (List.map_congr_left fun c _ => hf c)

/-- Helper: `remove_paragraph_borders` keeps the paragraph's full text. -/
theorem paraFullText_remove_paragraph_borders (p : Paragraph) :
    paraFullText (remove_paragraph_borders p) = paraFullText p := by
  have hf : ∀ c : PChild, pchildText (match c with
      | PChild.run r => PChild.run (cleanRunShd r)
      | other => other) = pchildText c := by
    intro c
    cases c with
    | run r => simp [pchildText, cleanRunShd_text]
    | hyperlink h => rfl
    | bookmarkStart a b => rfl
    | bookmarkEnd a => rfl
  unfold remove_paragraph_borders
  cases hp : p.pPr <;> simp only [hp] <;> exact joinText_map p.children _ hf

/-- Helper: `remove_cell_formatting` keeps the cell's texts. -/
theorem cellTexts_remove_cell_formatting (c : Cell) :
    cellTexts (remove_cell_formatting c) = cellTexts c := by
  unfold cellTexts remove_cell_formatting
  cases hc : c.tcPr <;>
    simp only [hc] <;>
    rw [List.map_map] <;>
    exact List.map_congr_left fun p _ => paraFullText_remove_paragraph_borders p

/-- Helper: `cleanTableCell` keeps the cell's texts (it only edits
`tcPr`). -/
theorem cellTexts_cleanTableCell (c : Cell) :
    cellTexts (cleanTableCell c) = cellTexts c := by
  cases hc : c.tcPr with
  | none => simp [cleanTableCell, hc]
  | some pr =>
      cases hs : pr.shd with
      | none => simp [cleanTableCell, hc, hs]
      | some s =>
          cases hf : s.fill with
          | none => simp [cleanTableCell, hc, hs, hf]
          | some f =>
              simp only [cleanTableCell, hc, hs, hf]
              split <;> rfl

/-- Helper: the wrapper/data table cleanup keeps the table skeleton. -/
theorem tableSkel_processTableForWrapper (t : Table) :
    tableSkel (processTableForWrapper t) = tableSkel t := by
  unfold processTableForWrapper
  split
  · have h1 : (remove_table_borders t).gridCols = t.gridCols := by
      unfold remove_table_borders
      cases t.tblPr <;> rfl
    have h2 : (remove_table_borders t).rows = t.rows := by
      unfold remove_table_borders
      cases t.tblPr <;> rfl
    unfold tableSkel
    simp only [h1, h2, List.map_map]
    refine congrArg (Prod.mk _) (List.map_congr_left fun row _ => ?_)
    show List.map cellTexts (List.map remove_cell_formatting row) = List.map cellTexts row
    rw [List.map_map]
    exact List.map_congr_left fun c _ => cellTexts_remove_cell_formatting c
  · unfold tableSkel apply_clean_table_style
    simp only [List.map_map]
    refine congrArg (Prod.mk _) (List.map_congr_left fun row _ => ?_)
    show List.map cellTexts (List.map cleanTableCell row) = List.map cellTexts row
    rw [List.map_map]
    exact List.map_congr_left fun c _ => cellTexts_cleanTableCell c

/-- Helper: `tableSkels` of a document whose blocks were mapped by a
skeleton-preserving function. -/
theorem tableSkels_blocks_map (d : Document) (g : Block → Block)
    (hg : ∀ b, blockTblSkel (g b) = blockTblSkel b)
    (bs : List Block) (hbs : bs = d.blocks.map g) :
    (bs.filterMap blockTblSkel) = d.tableSkels := by
  rw [hbs]
  show (d.blocks.map g).filterMap blockTblSkel = d.blocks.filterMap blockTblSkel
  rw [List.filterMap_map]
  exact List.filterMap_congr fun b _ => hg b

/-- Helper: pass 1 keeps the tables (it only edits sections). -/
theorem tableSkels_set_page_margins (d : Document) :
    (set_page_margins d).tableSkels = d.tableSkels := rfl

/-- Helper: pass 2 keeps the table skeletons. -/
theorem tableSkels_remove_wrapper_tables (d : Document) :
    (remove_wrapper_tables d).tableSkels = d.tableSkels := by
  unfold remove_wrapper_tables
  refine tableSkels_blocks_map d _ ?_ _ rfl
  intro b
  cases b with
  | para p => rfl
  | tbl t =>
      show some (tableSkel (processTableForWrapper t)) = some (tableSkel t)
      rw [tableSkel_processTableForWrapper t]

/-- Helper: pass 3 keeps the table skeletons. -/
theorem tableSkels_remove_all_paragraph_borders (d : Document) :
    (remove_all_paragraph_borders d).tableSkels = d.tableSkels := by
  unfold remove_all_paragraph_borders
  refine tableSkels_blocks_map d _ ?_ _ rfl
  intro b
  cases b with
  | para p => rfl
  | tbl t =>
      show some (tableSkel _) = some (tableSkel t)
      unfold tableSkel
      simp only [List.map_map]
      refine congrArg some (congrArg (Prod.mk _) (List.map_congr_left fun row _ => ?_))
      show List.map cellTexts (List.map (fun c =>
        { c with paragraphs := c.paragraphs.map remove_paragraph_borders }) row) =
        List.map cellTexts row
      rw [List.map_map]
      refine List.map_congr_left fun c _ => ?_
      show (c.paragraphs.map remove_paragraph_borders).map paraFullText =
        c.paragraphs.map paraFullText
      rw [List.map_map]
      exact List.map_congr_left fun p _ => paraFullText_remove_paragraph_borders p

/-- Helper: pass 4 keeps the tables untouched. -/
theorem tableSkels_clean_headings (d : Document) :
    (clean_headings d).tableSkels = d.tableSkels := by
  unfold clean_headings
  refine tableSkels_blocks_map d _ ?_ _ rfl
  intro b
  cases b with
  | para p =>
      show blockTblSkel (if clean_headings_is_heading p then _ else _) = none
      split <;> rfl
  | tbl t => rfl

/-- Helper: `mapAccumL` with a pointwise projection-preserving step keeps
the projected list. -/
theorem mapAccumL_map_pointwise {σ α γ : Type} (f : σ → α → σ × α) (g : α → γ)
    (hf : ∀ s a, g ((f s a).2) = g a) :
    ∀ (l : List α) (s : σ), ((mapAccumL f s l).2).map g = l.map g := by
  intro l
  induction l with
  | nil => intro s; rfl
  | cons a l ih =>
      intro s
      show ((f s a).2 :: (mapAccumL f (f s a).1 l).2).map g = (a :: l).map g
      rw [List.map_cons, List.map_cons, hf s a, ih]

/-- Helper: `mapAccumL` with a skeleton-preserving step keeps the
`filterMap`. -/
theorem mapAccumL_filterMap_eq {σ α γ : Type} (f : σ → α → σ × α)
    (g : α → Option γ) (hf : ∀ s a, g ((f s a).2) = g a) :
    ∀ (l : List α) (s : σ), ((mapAccumL f s l).2).filterMap g = l.filterMap g := by
  intro l
  induction l with
  | nil => intro s; rfl
  | cons a l ih =>
      intro s
      show ((f s a).2 :: (mapAccumL f (f s a).1 l).2).filterMap g = (a :: l).filterMap g
      rw [List.filterMap_cons, List.filterMap_cons, hf s a, ih]

/-- Helper: the PDF-map step keeps the child text. -/
theorem pchildText_hlMapStep (m : List (String × String))
    (s : List (String × Bool)) (c : PChild) :
    pchildText ((hlMapStep m s c).2) = pchildText c := by
  cases c with
  | run r =>
      simp only [hlMapStep]
      by_cases hr : r.text ≠ ""
      · rw [if_pos hr]
        cases mapLookup m (pyLower (pyStrip r.text)) with
        | some url =>
            show pchildText (PChild.hyperlink
              { rId := some (relateTo s (normalizeUrl url)).2, anchor := none,
                runs := [styleLinkRun r] }) = r.text
            show String.join [(styleLinkRun r).text] = r.text
            rw [strJoin_singleton]
            exact rfl
        | none => rfl
      · rw [if_neg hr]
  | hyperlink h => rfl
  | bookmarkStart a b => rfl
  | bookmarkEnd a => rfl

/-- Helper: the URL-regex step keeps the child text. -/
theorem pchildText_hlRegexStep (s : List (String × Bool)) (c : PChild) :
    pchildText ((hlRegexStep s c).2) = pchildText c := by
  cases c with
  | run r =>
      simp only [hlRegexStep]
      by_cases hr : r.text ≠ ""
      · rw [if_pos hr]
        cases findUrlMatches r.text with
        | nil => rfl
        | cons m ms =>
            show String.join [(styleLinkRun r).text] = r.text
            rw [strJoin_singleton]
            exact rfl
      · rw [if_neg hr]
  | hyperlink h => rfl
  | bookmarkStart a b => rfl
  | bookmarkEnd a => rfl

/-- Helper: `_process_paragraph_for_hyperlinks` keeps the paragraph's full
text: run wraps preserve the wrapped text and restyles keep texts. -/
theorem paraFullText_processParagraph (m : List (String × String))
    (st : List (String × Bool)) (p : Paragraph) :
    paraFullText ((processParagraphForHyperlinks m st p).2) = paraFullText p := by
  have h1 : ∀ c : PChild, pchildText (match c with
      | PChild.hyperlink h => PChild.hyperlink (style_hyperlink_runs h)
      | other => other) = pchildText c := by
    intro c
    cases c with
    | hyperlink h =>
        show String.join ((h.runs.map styleLinkRun).map Run.text) =
          String.join (h.runs.map Run.text)
        rw [List.map_map]
        exact congrArg String.join (List.map_congr_left fun r _ => rfl)
    | run r => rfl
    | bookmarkStart a b => rfl
    | bookmarkEnd a => rfl
  unfold processParagraphForHyperlinks
  by_cases hm : (findUrlMatches p.text).isEmpty
  · simp only [hm, if_true]
    show String.join (((mapAccumL (hlMapStep m) st _).2).map pchildText) =
      String.join (p.children.map pchildText)
    rw [mapAccumL_map_pointwise (hlMapStep m) pchildText (pchildText_hlMapStep m)]
    exact joinText_map p.children _ h1
  · simp only [hm, if_false]
    show String.join (((mapAccumL hlRegexStep _ (mapAccumL (hlMapStep m) st _).2).2).map
        pchildText) = String.join (p.children.map pchildText)
    rw [mapAccumL_map_pointwise hlRegexStep pchildText pchildText_hlRegexStep,
      mapAccumL_map_pointwise (hlMapStep m) pchildText (pchildText_hlMapStep m)]
    exact joinText_map p.children _ h1

/-- Helper: the first hyperlink phase keeps block skeletons. -/
theorem blockTblSkel_hlParaPhaseStep (m : List (String × String))
    (st : List (String × Bool)) (b : Block) :
    blockTblSkel ((hlParaPhaseStep m st b).2) = blockTblSkel b := by
  cases b <;> rfl

/-- Helper: the per-cell hyperlink step keeps the cell texts. -/
theorem cellTexts_hlCellStep (m : List (String × String))
    (st : List (String × Bool)) (c : Cell) :
    cellTexts ((hlCellStep m st c).2) = cellTexts c := by
  show ((mapAccumL (processParagraphForHyperlinks m) st c.paragraphs).2).map paraFullText
    = c.paragraphs.map paraFullText
  exact mapAccumL_map_pointwise (processParagraphForHyperlinks m) paraFullText
    (paraFullText_processParagraph m) c.paragraphs st

/-- Helper: the per-row hyperlink step keeps the row's cell texts. -/
theorem rowTexts_hlRowStep (m : List (String × String))
    (st : List (String × Bool)) (row : List Cell) :
    ((hlRowStep m st row).2).map cellTexts = row.map cellTexts :=
  mapAccumL_map_pointwise (hlCellStep m) cellTexts (cellTexts_hlCellStep m) row st

/-- Helper: the second hyperlink phase keeps block skeletons. -/
theorem blockTblSkel_hlTblPhaseStep (m : List (String × String))
    (st : List (String × Bool)) (b : Block) :
    blockTblSkel ((hlTblPhaseStep m st b).2) = blockTblSkel b := by
  cases b with
  | para p => rfl
  | tbl t =>
      show some (tableSkel { t with rows := (mapAccumL (hlRowStep m) st t.rows).2 })
        = some (tableSkel t)
      unfold tableSkel
      have := mapAccumL_map_pointwise (hlRowStep m) (fun row => row.map cellTexts)
        (fun s row => rowTexts_hlRowStep m s row) t.rows st
      simp only at this ⊢
      rw [this]

/-- Helper: pass 5 keeps the table skeletons. -/
theorem tableSkels_rebuild_hyperlinks (links : List PdfLink) (d : Document) :
    (rebuild_hyperlinks links d).tableSkels = d.tableSkels := by
  unfold rebuild_hyperlinks
  show ((mapAccumL (hlTblPhaseStep (buildPdfUrlMap links)) _
      (mapAccumL (hlParaPhaseStep (buildPdfUrlMap links)) d.rels d.blocks).2).2).filterMap
      blockTblSkel = d.blocks.filterMap blockTblSkel
  rw [mapAccumL_filterMap_eq _ blockTblSkel (blockTblSkel_hlTblPhaseStep _),
    mapAccumL_filterMap_eq _ blockTblSkel (blockTblSkel_hlParaPhaseStep _)]

/-- Helper: `updateParaAt` keeps the table skeletons. -/
theorem filterMap_skel_updateParaAt (f : Paragraph → Paragraph) :
    ∀ (bs : List Block) (n : Nat),
      (updateParaAt f bs n).filterMap blockTblSkel = bs.filterMap blockTblSkel := by
  intro bs
  induction bs with
  | nil => intro n; rfl
  | cons b bs ih =>
      intro n
      cases b with
      | para p =>
          cases n with
          | zero => rfl
          | succ n =>
              show (Block.para p :: updateParaAt f bs n).filterMap blockTblSkel = _
              rw [List.filterMap_cons, List.filterMap_cons, ih n]
      | tbl t =>
          show (Block.tbl t :: updateParaAt f bs n).filterMap blockTblSkel = _
          rw [List.filterMap_cons, List.filterMap_cons, ih n]

/-- Helper: the bookmark fold keeps the table skeletons. -/
theorem filterMap_skel_tocBookmarked (d : Document) (headings : List HeadingInfo) :
    (tocBookmarkedBlocks d headings).filterMap blockTblSkel =
      d.blocks.filterMap blockTblSkel := by
  unfold tocBookmarkedBlocks
  generalize d.blocks = bs
  induction headings generalizing bs with
  | nil => rfl
  | cons h hs ih =>
      simp only [List.foldl_cons]
      by_cases hc : h.index < d.paragraphs.length
      · rw [if_pos hc]
        exact (ih _).trans (filterMap_skel_updateParaAt _ bs h.index)
      · rw [if_neg hc]
        exact ih bs

/-- Helper: inserting a paragraph block anywhere keeps the table
skeletons. -/
theorem filterMap_skel_insertIdx (p : Paragraph) :
    ∀ (n : Nat) (l : List Block),
      ((l.insertIdx n (Block.para p)).filterMap blockTblSkel) =
        l.filterMap blockTblSkel := by
  intro n
  induction n with
  | zero =>
      intro l
      rw [List.insertIdx_zero, List.filterMap_cons]
      rfl
  | succ n ih =>
      intro l
      cases l with
      | nil => rw [List.insertIdx_succ_nil]
      | cons b bs =>
          rw [List.insertIdx_succ_cons, List.filterMap_cons, List.filterMap_cons, ih bs]

/-- Helper: pass 6 keeps the table skeletons. -/
theorem tableSkels_rebuild_toc (d : Document) :
    (rebuild_toc d).tableSkels = d.tableSkels := by
  by_cases hh : (_collect_headings d).isEmpty
  · simp only [rebuild_toc, hh, if_true]
  · simp only [rebuild_toc, hh, Bool.false_eq_true, if_false]
    cases ht : tocTitleParaIdx d with
    | none => rfl
    | some i =>
        simp only [_add_toc_field]
        cases hbi : blockIdxOfParaIdx (tocBookmarkedBlocks d (_collect_headings d)) i with
        | none =>
            show (tocBookmarkedBlocks d (_collect_headings d)).filterMap blockTblSkel =
              d.blocks.filterMap blockTblSkel
            exact filterMap_skel_tocBookmarked d _
        | some bi =>
            show (((tocBookmarkedBlocks d (_collect_headings d)).insertIdx (bi + 1)
              (Block.para tocFieldParagraph)).filterMap blockTblSkel) =
              d.blocks.filterMap blockTblSkel
            rw [filterMap_skel_insertIdx tocFieldParagraph (bi + 1)]
            exact filterMap_skel_tocBookmarked d _

/-- Helper: pass 7 keeps the table skeletons. -/
theorem filterMap_skel_mapParasWithIdx (f : Nat → Paragraph → Paragraph) :
    ∀ (bs : List Block) (i : Nat),
      (mapParasWithIdx f bs i).filterMap blockTblSkel = bs.filterMap blockTblSkel := by
  intro bs
  induction bs with
  | nil => intro i; rfl
  | cons b bs ih =>
      intro i
      cases b with
      | para p =>
          show (Block.para (f i p) :: mapParasWithIdx f bs (i + 1)).filterMap blockTblSkel = _
          rw [List.filterMap_cons, List.filterMap_cons, ih (i + 1)]
          rfl
      | tbl t =>
          show (Block.tbl t :: mapParasWithIdx f bs i).filterMap blockTblSkel = _
          rw [List.filterMap_cons, List.filterMap_cons, ih i]

/-- Helper: pass 7 keeps the table skeletons. -/
theorem tableSkels_rebuild_list (d : Document) :
    (rebuild_list_of_figures_tables d).tableSkels = d.tableSkels := by
  unfold rebuild_list_of_figures_tables
  exact filterMap_skel_mapParasWithIdx _ d.blocks 0

/-- Helper: pass 8 keeps the tables untouched. -/
theorem tableSkels_fix_cross_references (d : Document) :
    (fix_cross_references d).tableSkels = d.tableSkels := by
  unfold fix_cross_references
  refine tableSkels_blocks_map d _ ?_ _ rfl
  intro b
  cases b <;> rfl

/-- Helper: pass 9 keeps the tables untouched. -/
theorem tableSkels_apply_native_styles (d : Document) :
    (apply_native_styles d).tableSkels = d.tableSkels := by
  unfold apply_native_styles
  refine tableSkels_blocks_map { d with normal := { fontName := some "Calibri", fontSize := some (Pt 11), spaceAfter := some (Pt 8), lineSpacingHundredths := some 115 } } _ ?_ _ rfl
  intro b
  cases b <;> rfl

/-- C9 amended (table preservation): `make_docx_native` never deletes or
inserts a table — the sequence of table skeletons (order, column count,
row/cell grid, full cell text) is exactly preserved. -/
theorem make_docx_native_tables_preserved (links : List PdfLink) (d : Document) :
    (make_docx_native_doc links d).tableSkels = d.tableSkels := by
  unfold make_docx_native_doc
  rw [tableSkels_apply_native_styles, tableSkels_fix_cross_references,
    tableSkels_rebuild_list, tableSkels_rebuild_toc, tableSkels_rebuild_hyperlinks,
    tableSkels_clean_headings, tableSkels_remove_all_paragraph_borders,
    tableSkels_remove_wrapper_tables, tableSkels_set_page_margins]

/-- C9 counterexample (to "only border, shading and indent change"): a
wrapper table whose cell contains a bare URL has that run recolored,
underlined and wrapped into a hyperlink element by the rewrite — a change
beyond borders, shading and indent. -/
theorem wrapper_cell_restyled_counterexample :
    c9proj c9doc = some [PChild.run { text := "www.example.com" }] ∧
    c9proj (make_docx_native_doc [] c9doc) =
      some [PChild.hyperlink
        { rId := some 0, anchor := none,
          runs := [{ text := "www.example.com", bold := none,
                     font := { name := none, size := none,
                               color := some ⟨0, 0, 238⟩, underline := some true },
                     shd := none, fld := none }] }] := by decide

end Dochameleon
